import Mathlib

/-!
Verification of the infinite-context system's tiered memory engine.

This file shallowly embeds the core data model and operations of the
repository (orchestrator budget allocation, Tier-1 active window, Tier-2
extractive compression, Tier-3 hybrid retrieval with caching, Tier-4 entity
graph) as executable Lean definitions, and proves or refutes the frozen
claims about them.

Modelling conventions:
- Python `float` arithmetic on weights/scores is modelled with `ℚ`.
- Token counting is performed by an external pluggable tokenizer
  (`tiktoken` in the source); it is modelled as an abstract
  `Counter : String → Nat` parameter.
- `datetime.now()` is modelled by an explicit `now : Nat` clock argument.
- Python dicts are modelled as insertion-ordered association lists with
  assignment preserving the position of an existing key.
- Python's process-seeded builtin `hash` is modelled as an abstract
  `String → Nat` parameter.
-/

/-- Abstract token counter (the source delegates to a pluggable tokenizer). -/
abbrev Counter := String → Nat

/-- Python `sub in s` substring test. -/
def strHasSub (sub s : String) : Bool :=
  (List.range (s.data.length + 1)).any
    (fun i => (s.data.drop i).take sub.data.length == sub.data)

/-- Python `s.startswith(p)`. -/
def strStarts (p s : String) : Bool :=
  s.data.take p.data.length == p.data

/-- Python `s.lower()` (kernel-computable form of `String.toLower`). -/
def strLower (s : String) : String := ⟨s.data.map Char.toLower⟩

/-- Python `s.upper()` (kernel-computable form of `String.toUpper`). -/
def strUpper (s : String) : String := ⟨s.data.map Char.toUpper⟩

/-- Maximal non-whitespace runs of a character list. -/
def wsTokens : List Char → List Char → List String
  | [], acc => if acc = [] then [] else [⟨acc.reverse⟩]
  | c :: cs, acc =>
    if c.isWhitespace then
      (if acc = [] then [] else [⟨acc.reverse⟩]) ++ wsTokens cs []
    else wsTokens cs (c :: acc)

/-- Python `s.split()` (split on whitespace runs, dropping empty pieces). -/
def pySplitWs (s : String) : List String := wsTokens s.data []

/-- Leftmost non-overlapping split on the two-character separator `". "`. -/
def splitDotSp : List Char → List Char → List (List Char)
  | [], acc => [acc.reverse]
  | [c], acc => [(c :: acc).reverse]
  | c1 :: c2 :: cs, acc =>
    if c1 = '.' ∧ c2 = ' ' then acc.reverse :: splitDotSp cs []
    else splitDotSp (c2 :: cs) (c1 :: acc)

/-- Python `text.split('. ')`. -/
def pySplitDot (s : String) : List String := (splitDotSp s.data []).map (fun l => ⟨l⟩)

/-- Python `s.capitalize()`: first character upper-cased, rest lower-cased. -/
def pyCapitalize (s : String) : String :=
  match s.data with
  | [] => ""
  | c :: cs => ⟨c.toUpper :: cs.map Char.toLower⟩

/-- Python `sep.join(parts)` specialised to the separators used in the source. -/
def strJoin (sep : String) : List String → String
  | [] => ""
  | [s] => s
  | s :: rest => s ++ sep ++ strJoin sep rest

/-- Lookup in a Python-dict model. -/
def dictFind {V : Type} (d : List (String × V)) (k : String) : Option V :=
  (d.find? (fun p => p.1 == k)).map (fun p => p.2)

/-- Python dict assignment `d[k] = v`: update in place, else append. -/
def dictInsert {V : Type} (d : List (String × V)) (k : String) (v : V) :
    List (String × V) :=
  if d.any (fun p => p.1 == k) then
    d.map (fun p => if p.1 == k then (k, v) else p)
  else d ++ [(k, v)]

/-- Python `d1.update(d2)`. -/
def dictUpdate {V : Type} (d₁ d₂ : List (String × V)) : List (String × V) :=
  d₂.foldl (fun acc p => dictInsert acc p.1 p.2) d₁

/-- Stable insertion of `x` before the first element `y` with `le x y`. -/
def stableInsert {α : Type} (le : α → α → Bool) (x : α) : List α → List α
  | [] => [x]
  | y :: ys => if le x y then x :: y :: ys else y :: stableInsert le x ys

/-- Python's stable `sort`/`sorted` with boolean comparison `le` ("comes
before or ties"): a stable sort is unique, so insertion sort models it. -/
def pySortBy {α : Type} (le : α → α → Bool) : List α → List α
  | [] => []
  | x :: xs => stableInsert le x (pySortBy le xs)

/-- A concrete counter used by witnesses (one "token" per character). -/
def lenCounter : Counter := String.length

/- ===================== Tier 1: Active context window ===================== -/

/-- `Message` from tier1_active_context.py. -/
structure Message where
  role : String
  content : String
  timestamp : Nat
  tokens : Nat
  importance : ℚ
deriving Repr, DecidableEq

/-- `KeyPoint` from tier1_active_context.py. -/
structure KeyPoint where
  content : String
  sourceIdx : Nat
  extractionTime : Nat
  relevance : ℚ
  category : String
deriving Repr, DecidableEq

/-- State of `ActiveContextWindow`.  `saveCount` counts `_save_to_disk`
invocations (the write itself is an external side effect). -/
structure WindowState where
  maxTokens : Nat
  messages : List Message
  keyPoints : List KeyPoint
  systemMessage : Option Message
  currentTokens : ℤ
  totalProcessed : Nat
  saveCount : Nat
deriving Repr, DecidableEq

/-- `_extract_key_point_from_message` (first 500 characters, "preserved"). -/
def keyPointOfEvicted (m : Message) (pos now : Nat) : KeyPoint :=
  { content := ⟨m.content.data.take 500⟩
    sourceIdx := pos
    extractionTime := now
    relevance := m.importance
    category := "preserved" }

/-- `_manage_window_size`: pop from the head while over budget and more than
one message remains; importance above 0.7 leaves a key point. -/
def evictLoop (maxT now : Nat) :
    List Message → ℤ → List KeyPoint → List Message × ℤ × List KeyPoint
  | [], ct, kps => ([], ct, kps)
  | m :: rest, ct, kps =>
    if ct > (maxT : ℤ) ∧ rest ≠ [] then
      let kps' := if m.importance > 7/10 then
        kps ++ [keyPointOfEvicted m rest.length now] else kps
      evictLoop maxT now rest (ct - (m.tokens : ℤ)) kps'
    else (m :: rest, ct, kps)

/-- The literal marker phrases scanned by `_extract_key_points`. -/
def indicatorList : List String :=
  ["important:", "note:", "remember:", "key point:", "decision:",
   "preference:", "don\x27t forget:", "crucial:"]

/-- One message's contribution in `_extract_key_points`. -/
def msgIndicatorKeyPoint (now msgsLen recentLen idx : Nat) (m : Message) :
    Option KeyPoint :=
  if indicatorList.any (fun ind => strHasSub ind (strLower m.content)) then
    some { content := m.content
           sourceIdx := msgsLen - recentLen + idx
           extractionTime := now
           relevance := 4/5
           category := "important" }
  else none

/-- `_extract_key_points`: scan the last five messages for marker phrases. -/
def extractKeyPoints (now : Nat) (msgs : List Message) : List KeyPoint :=
  let recent := msgs.drop (msgs.length - 5)
  recent.enum.filterMap (fun p => msgIndicatorKeyPoint now msgs.length recent.length p.1 p.2)

/-- `ActiveContextWindow.add_message`.  The messages deque has
`maxlen=1000`: appending to a full deque silently drops the head (without
touching `current_tokens`).  A system-role message only replaces the stored
system message and returns early. -/
def addMessage (counter : Counter) (st : WindowState) (role content : String)
    (importance : ℚ) (now : Nat) : Message × WindowState :=
  let tokens := counter content
  let msg : Message :=
    { role := role, content := content, timestamp := now
      tokens := tokens, importance := importance }
  if role = "system" then
    (msg, { st with systemMessage := some msg })
  else
    let base := if st.messages.length = 1000 then st.messages.tail else st.messages
    let msgs := base ++ [msg]
    let ct : ℤ := st.currentTokens + (tokens : ℤ)
    let total := st.totalProcessed + 1
    let ev := evictLoop st.maxTokens now msgs ct st.keyPoints
    let kps := if total % 5 = 0 then ev.2.2 ++ extractKeyPoints now ev.1 else ev.2.2
    (msg, { st with
      messages := ev.1
      currentTokens := ev.2.1
      keyPoints := kps
      totalProcessed := total
      saveCount := st.saveCount + 1 })

/-- First-seen order of key-point categories (Python dict `setdefault`). -/
def kpCategories (l : List KeyPoint) : List String :=
  l.foldl (fun acc kp => if acc.contains kp.category then acc else acc ++ [kp.category]) []

/-- `_format_key_points`: last ten key points grouped by category. -/
def formatKeyPoints (kps : List KeyPoint) : String :=
  if kps = [] then ""
  else
    let last10 := kps.drop (kps.length - 10)
    let parts := (kpCategories last10).foldl (fun acc c =>
      acc ++ ("\n[" ++ strUpper c ++ "]") ::
        ((last10.filter (fun kp => kp.category = c)).map
          (fun kp => "- " ++ (⟨kp.content.data.take 200⟩ : String)))) []
    strJoin "\n" parts

/-- `ActiveContextWindow.get_context_for_llm`: system message, then a key
point block, then every live message — with no token cap of any kind. -/
def getContextForLLM1 (st : WindowState) (includeKeyPoints : Bool) :
    List (String × String) :=
  (match st.systemMessage with
   | some m => [("system", m.content)]
   | none => []) ++
  (if includeKeyPoints ∧ st.keyPoints ≠ [] then
    [("system", "Key points from earlier conversation:\n" ++ formatKeyPoints st.keyPoints)]
   else []) ++
  st.messages.map (fun m => (m.role, m.content))

/-- Sum of the token counts of the messages currently stored in the window. -/
def windowTokenSum (st : WindowState) : ℤ :=
  (st.messages.map (fun m => (m.tokens : ℤ))).sum

/- ===================== Tier 2: Compressed memory ===================== -/

/-- A Tier-1 message dict as exported for compression. -/
structure MsgDict where
  role : String
  content : String
  importance : ℚ
  timestamp : Nat
deriving Repr, DecidableEq

/-- `CompressedMemory` (identity/time-range fields elided to the clock). -/
structure CompressedMem where
  summary : String
  tokenCount : Nat
  originalMessageCount : Nat
  compressionRatio : ℚ
  timestamp : Nat
  importance : ℚ
deriving Repr, DecidableEq, Inhabited

/-- The scoring keywords of `_extractive_compress`. -/
def extractKeywords : List String :=
  ["important", "key", "remember", "note", "decision",
   "prefer", "need", "must", "critical", "essential"]

/-- Sentence score: one per keyword hit, plus 2 for user-authored sentences. -/
def sentenceScore (sent : String) : Nat :=
  (extractKeywords.filter (fun kw => strHasSub kw (strLower sent))).length
  + (if strStarts "User:" sent ∨ strStarts "user:" sent then 2 else 0)

/-- Sentences of the input with their scores, in source order. -/
def scoredSentences (text : String) : List (String × Nat) :=
  (pySplitDot text).map (fun s => (s, sentenceScore s))

/-- Python's stable `sorted(..., reverse=True)` on the score. -/
def sortedSentences (text : String) : List (String × Nat) :=
  (scoredSentences text) |> pySortBy (fun a b => decide (b.2 ≤ a.2))

/-- The greedy packing loop of `_extractive_compress` (breaks at the first
sentence that does not fit). -/
def packSentences (counter : Counter) (target : Nat) :
    List (String × Nat) → Nat → List String
  | [], _ => []
  | (s, _) :: rest, cur =>
    if cur + counter s ≤ target then s :: packSentences counter target rest (cur + counter s)
    else []

/-- The sentences selected by `_extractive_compress`, in emission order. -/
def extractiveSelect (counter : Counter) (text : String) (target : Nat) : List String :=
  packSentences counter target (sortedSentences text) 0

/-- `'. '.join(compressed) + '.'` -/
def extractiveCompress (counter : Counter) (text : String) (target : Nat) : String :=
  strJoin ". " (extractiveSelect counter text target) ++ "."

/-- `_format_messages`: `"Role: content"` blocks joined by blank lines. -/
def formatMessages (msgs : List MsgDict) : String :=
  strJoin "\n\n" (msgs.map (fun m => pyCapitalize m.role ++ ": " ++ m.content))

/-- `_calculate_importance`: position-weighted average of importances. -/
def calculateImportance (msgs : List MsgDict) : ℚ :=
  if msgs = [] then 1/2
  else
    let scores := msgs.map (fun m => m.importance)
    let weightedSum := (scores.enum.map (fun p => p.2 * ((p.1 : ℚ) + 1))).sum
    let weightTotal := ((List.range scores.length).map (fun i => (i : ℚ) + 1)).sum
    if weightTotal > 0 then weightedSum / weightTotal else 1/2

/-- The fixed compression levels `{1: 100, 2: 500, 3: 2000}`. -/
def compressionLevels : List (Nat × Nat) := [(1, 100), (2, 500), (3, 2000)]

/-- One level of `create_hierarchical_summary` (`_llm_compress` is a
placeholder that delegates to `_extractive_compress`). -/
def compressAtLevel (counter : Counter) (convText : String) (msgs : List MsgDict)
    (target now : Nat) : CompressedMem :=
  let ct := extractiveCompress counter convText target
  { summary := ct
    tokenCount := counter ct
    originalMessageCount := msgs.length
    compressionRatio := (counter ct : ℚ) / (counter convText : ℚ)
    timestamp := now
    importance := calculateImportance msgs }

/-- `create_hierarchical_summary`: the levels dict, in insertion order. -/
def createHierarchicalSummary (counter : Counter) (msgs : List MsgDict) (now : Nat) :
    List (Nat × CompressedMem) :=
  compressionLevels.map (fun lv => (lv.1, compressAtLevel counter (formatMessages msgs) msgs lv.2 now))

/-- `HierarchicalSummary.get_level`. -/
def getLevel (h : List (Nat × CompressedMem)) (lv : Nat) : Option CompressedMem :=
  (h.find? (fun p => p.1 == lv)).map (fun p => p.2)

/- ===================== Tier 4: Persistent entity memory ===================== -/

/-- `Entity` from tier4_persistent_memory.py. -/
structure Entity where
  entityId : String
  name : String
  entityType : String
  attributes : List (String × String)
  firstMentioned : Nat
  lastMentioned : Nat
  mentionCount : Nat
  importance : ℚ
deriving Repr, DecidableEq

/-- In-memory `EntityMemoryGraph` (relationship store elided: the claims
under verification touch only the entity side). -/
structure EntityGraph where
  entities : List (String × Entity)
  entityByName : List (String × String)
deriving Repr, DecidableEq

def emptyEntityGraph : EntityGraph := ⟨[], []⟩

/-- `EntityMemoryGraph.add_entity`: merge on an `entity_id` hit (bump
`last_mentioned`, increment `mention_count`, dict-update attributes),
otherwise insert and index the lower-cased name. -/
def addEntity (g : EntityGraph) (e : Entity) (now : Nat) : Entity × EntityGraph :=
  match dictFind g.entities e.entityId with
  | some existing =>
    let updated := { existing with
      lastMentioned := now
      mentionCount := existing.mentionCount + 1
      attributes := dictUpdate existing.attributes e.attributes }
    (updated, { g with entities := dictInsert g.entities e.entityId updated })
  | none =>
    (e, { g with
      entities := g.entities ++ [(e.entityId, e)]
      entityByName := dictInsert g.entityByName (strLower e.name) e.entityId })

/-- One entity record of the (external) extractor's structured output. -/
structure ExtractedEntity where
  name : String
  etype : String
  importance : ℚ
deriving Repr, DecidableEq

/-- `entity_id = f"entity_{hash(name) % 1000000}"`; Python's seeded builtin
`hash` is the abstract `pyHash` parameter. -/
def entityIdOf (pyHash : String → Nat) (name : String) : String :=
  "entity_" ++ toString (pyHash name % 1000000)

/-- The storage loop of `extract_and_store_entities` applied to the
extractor's structured output: each entity is built with the call's context
as attributes and the dataclass default `mention_count = 0`, then upserted. -/
def storeExtractedEntities (pyHash : String → Nat) (g : EntityGraph)
    (ents : List ExtractedEntity) (context : List (String × String)) (now : Nat) :
    List Entity × EntityGraph :=
  ents.foldl (fun acc ed =>
    let e : Entity :=
      { entityId := entityIdOf pyHash ed.name
        name := ed.name
        entityType := ed.etype
        attributes := context
        firstMentioned := now
        lastMentioned := now
        mentionCount := 0
        importance := ed.importance }
    let r := addEntity acc.2 e now
    (acc.1 ++ [r.1], r.2)) ([], g)

/-- `PersistentMemorySystem.get_relevant_entities`: name/query term overlap
times importance, sorted descending (stable), truncated to `top_k`. -/
def getRelevantEntities (entities : List Entity) (query : String) (topK : Nat) :
    List Entity :=
  let qterms := (pySplitWs (strLower query)).dedup
  let scored := entities.filterMap (fun e =>
    let eterms := (pySplitWs (strLower e.name)).dedup
    let overlap := (qterms.filter (fun t => t ∈ eterms)).length
    if overlap > 0 then
      some (e, (overlap : ℚ) / (qterms.length : ℚ) * e.importance)
    else none)
  ((scored |> pySortBy (fun a b => decide (b.2 ≤ a.2))).take topK).map (fun p => p.1)

/- ===================== Orchestrator: budget allocation ===================== -/

/-- `ContextBudget` from orchestrator.py. -/
structure ContextBudget where
  tier1Active : ℤ
  tier2Compressed : ℤ
  tier3Retrieval : ℤ
  tier4Persistent : ℤ
  systemPrompt : ℤ
deriving Repr, DecidableEq

/-- `ContextBudget.total`. -/
def ContextBudget.total (b : ContextBudget) : ℤ :=
  b.tier1Active + b.tier2Compressed + b.tier3Retrieval + b.tier4Persistent + b.systemPrompt

/-- Python `int()` on a rational: truncation toward zero (stated via the
computable `Rat.floor`). -/
def pyInt (q : ℚ) : ℤ := if 0 ≤ q then q.floor else -((-q).floor)

def historyWords : List String := ["history", "earlier", "before", "previous"]

def knowledgeWords : List String := ["what", "how", "why", "explain", "tell me about"]

/-- The four tier weights after the additive keyword adjustments (the source
mutates a dict in sequence; the net additive result is recorded here). -/
def tierWeights (hist knows ent : Bool) : ℚ × ℚ × ℚ × ℚ :=
  (35/100 + (if hist then -(5/100) else 0) + (if knows then -(10/100) else 0),
   20/100 + (if hist then 10/100 else 0) + (if ent then -(5/100) else 0),
   30/100 + (if hist then -(5/100) else 0) + (if knows then 10/100 else 0)
          + (if ent then -(5/100) else 0),
   15/100 + (if ent then 10/100 else 0))

/-- Normalise the adjusted weights and floor `available * weight` for each
tier (`int()` truncation), reserving 500 tokens for the system prompt. -/
def budgetFrom (hist knows ent : Bool) (available : ℤ) : ContextBudget :=
  let w := tierWeights hist knows ent
  let totalW := w.1 + w.2.1 + w.2.2.1 + w.2.2.2
  { tier1Active := pyInt ((available : ℚ) * (w.1 / totalW))
    tier2Compressed := pyInt ((available : ℚ) * (w.2.1 / totalW))
    tier3Retrieval := pyInt ((available : ℚ) * (w.2.2.1 / totalW))
    tier4Persistent := pyInt ((available : ℚ) * (w.2.2.2 / totalW))
    systemPrompt := 500 }

/-- `InfiniteContextOrchestrator._allocate_token_budget`: classify the query
by keyword containment, consult Tier 4 for relevant entities, then allocate
the post-reserve budget by the adjusted weights. -/
def allocateTokenBudget (entities : List Entity) (maxTokens : ℤ) (query : String) :
    ContextBudget :=
  let ql := (strLower query)
  let hist := historyWords.any (fun w => strHasSub w ql)
  let knows := knowledgeWords.any (fun w => strHasSub w ql)
  let ent := !(getRelevantEntities entities query 3).isEmpty
  budgetFrom hist knows ent (maxTokens - 500)

/- ===================== Tier 3: Vector retrieval ===================== -/

/-- `Document` from tier3_vector_retrieval.py (embedding elided: it lives
with the external index). -/
structure Doc where
  docId : String
  content : String
  metadata : List (String × String)
  source : String
  tokenCount : Nat
deriving Repr, DecidableEq, Inhabited

/-- `RetrievalResult`. -/
structure RResult where
  doc : Doc
  score : ℚ
  rank : Nat
  method : String
deriving Repr, DecidableEq, Inhabited

/-- State of `VectorRetrievalSystem`.  `backend` abstracts the external
Qdrant + embedding path of `_semantic_retrieve`; `none` models the
in-memory fallback. -/
structure VectorState where
  documents : List (String × Doc)
  cache : List (String × List RResult)
  enableCaching : Bool
  rerankEnabled : Bool
  rerankTopN : Nat
  defaultTopK : Nat
  defaultStrategy : String
  maxTokens : Nat
  backend : Option (String → Nat → List RResult)
  totalRetrievals : Nat

/-- `_semantic_retrieve`: external backend when connected, otherwise the
in-memory fallback (first `top_k` stored documents, score `1/i`, rank `i`). -/
def semanticRetrieve (st : VectorState) (query : String) (topK : Nat) :
    List RResult :=
  match st.backend with
  | some f => f query topK
  | none =>
    (st.documents.take topK).enum.map (fun p =>
      { doc := p.2.2
        score := 1 / ((p.1 : ℚ) + 1)
        rank := p.1 + 1
        method := "in-memory-fallback" })

/-- `_matches_filters`. -/
def matchesFilters (d : Doc) (filters : List (String × String)) : Bool :=
  filters.all (fun f => dictFind d.metadata f.1 == some f.2)

/-- `_bm25_retrieve`: distinct-term overlap fraction, stable descending
sort, top-k, ranks from 1. -/
def bm25Retrieve (st : VectorState) (query : String) (topK : Nat)
    (filters : List (String × String)) : List RResult :=
  let qterms := (pySplitWs (strLower query)).dedup
  let scores := st.documents.filterMap (fun p =>
    if matchesFilters p.2 filters then
      let dterms := (pySplitWs (strLower p.2.content)).dedup
      let common := qterms.filter (fun t => t ∈ dterms)
      if common.length > 0 then
        some (p.1, (common.length : ℚ) / (qterms.length : ℚ))
      else none
    else none)
  let sorted := scores |> pySortBy (fun a b => decide (b.2 ≤ a.2))
  (sorted.take topK).enum.map (fun q =>
    { doc := (dictFind st.documents q.2.1).getD default
      score := q.2.2
      rank := q.1 + 1
      method := "bm25" })

/-- One `combined_scores[doc_id] += v` step (`defaultdict(float)`;
Python dicts keep the position of an existing key). -/
def rrfBump (c : List (String × ℚ)) (id : String) (v : ℚ) : List (String × ℚ) :=
  if c.any (fun p => p.1 == id) then
    c.map (fun p => if p.1 == id then (p.1, p.2 + v) else p)
  else c ++ [(id, v)]

/-- Accumulate the RRF terms `1/(rank + 60)` of one result list. -/
def rrfFold (c : List (String × ℚ)) (rs : List RResult) : List (String × ℚ) :=
  rs.foldl (fun acc r => rrfBump acc r.doc.docId (1 / ((r.rank : ℚ) + 60))) c

/-- `doc_results[doc_id] = result` over the semantic list (overwrite). -/
def docResultsSem (m : List (String × RResult)) (rs : List RResult) :
    List (String × RResult) :=
  rs.foldl (fun acc r => dictInsert acc r.doc.docId r) m

/-- `if doc_id not in doc_results: doc_results[doc_id] = result` (bm25 list). -/
def docResultsBm (m : List (String × RResult)) (rs : List RResult) :
    List (String × RResult) :=
  rs.foldl (fun acc r =>
    if acc.any (fun p => p.1 == r.doc.docId) then acc
    else acc ++ [(r.doc.docId, r)]) m

/-- The fusion tail of `_hybrid_retrieve`: RRF-combine the two ranked lists,
sort by combined score descending, truncate to `top_k`, renumber ranks. -/
def rrfAssemble (semL bmL : List RResult) (topK : Nat) : List RResult :=
  let combined := rrfFold (rrfFold [] semL) bmL
  let docRes := docResultsBm (docResultsSem [] semL) bmL
  let sorted := combined |> pySortBy (fun a b => decide (b.2 ≤ a.2))
  (sorted.take topK).enum.map (fun q =>
    { doc := ((dictFind docRes q.2.1).getD default).doc
      score := q.2.2
      rank := q.1 + 1
      method := "hybrid" })

/-- `_hybrid_retrieve`: both input lists are computed at `top_k * 2`. -/
def hybridRetrieve (st : VectorState) (query : String) (topK : Nat)
    (filters : List (String × String)) : List RResult :=
  rrfAssemble (semanticRetrieve st query (topK * 2))
    (bm25Retrieve st query (topK * 2) filters) topK

/-- `_rerank`: blended score `0.7·old + 0.3·overlap_ratio`, stable
descending re-sort, ranks renumbered from 1.  (With an empty query the
source would raise `ZeroDivisionError`; the `ℚ` model returns 0 there.) -/
def rerankResults (query : String) (results : List RResult) : List RResult :=
  let qterms := (pySplitWs (strLower query)).dedup
  let rr := results.map (fun r =>
    let dterms := (pySplitWs (strLower r.doc.content)).dedup
    let overlap := (qterms.filter (fun t => t ∈ dterms)).length
    { r with
      score := r.score * (7/10) + ((overlap : ℚ) / (qterms.length : ℚ)) * (3/10)
      method := r.method ++ "_reranked" })
  let sorted := pySortBy (fun a b => decide (b.score ≤ a.score)) rr
  sorted.enum.map (fun q => { q.2 with rank := q.1 + 1 })

/-- `f"{query}:{top_k}:{strategy}"`. -/
def cacheKey (query : String) (topK : Nat) (strategy : String) : String :=
  query ++ ":" ++ toString topK ++ ":" ++ strategy

/-- `VectorRetrievalSystem.retrieve`: cache hit short-circuit, strategy
dispatch (unknown strategy raises `ValueError`), optional rerank,
truncation, cache store. -/
def retrieve (st : VectorState) (query : String) (topK? : Option Nat)
    (filters : List (String × String)) (strategy? : Option String) :
    Except String (List RResult × VectorState) :=
  let topK := topK?.getD st.defaultTopK
  let strategy := strategy?.getD st.defaultStrategy
  let key := cacheKey query topK strategy
  if ((dictFind st.cache key).isSome && st.enableCaching) then
    .ok ((dictFind st.cache key).getD [], st)
  else
    match
      (if strategy = "semantic" then .ok (semanticRetrieve st query topK)
       else if strategy = "bm25" then .ok (bm25Retrieve st query topK filters)
       else if strategy = "hybrid" then .ok (hybridRetrieve st query topK filters)
       else .error ("Unknown strategy: " ++ strategy) :
        Except String (List RResult)) with
    | .error e => .error e
    | .ok r0 =>
      let r1 := if st.rerankEnabled && decide (st.rerankTopN < r0.length) then
        rerankResults query (r0.take (st.rerankTopN * 2)) else r0
      let r2 := r1.take topK
      let st' := if st.enableCaching then
        { st with cache := dictInsert st.cache key r2 } else st
      .ok (r2, { st' with totalRetrievals := st'.totalRetrievals + 1 })

/-- `add_documents` (the external index upsert is a side effect; the
in-memory store is always written). -/
def addDocuments (counter : Counter) (st : VectorState) (docs : List Doc) :
    VectorState :=
  let docs := docs.map (fun d =>
    if d.tokenCount = 0 then { d with tokenCount := counter d.content } else d)
  { st with documents := docs.foldl (fun acc d => dictInsert acc d.docId d) st.documents }

/-- Fixed-point decimal rendering standing in for Python's `f"{x:.2f}"`
(exact digits are irrelevant to every property proved here). -/
def ratFmt2 (q : ℚ) : String :=
  let n : ℤ := ⌊q * 100⌋
  toString (n / 100) ++ "." ++ toString ((n % 100) / 10) ++ toString (n % 10)

def tier3Header : String := "=== Retrieved Knowledge ===\n"

/-- Rendering of one retrieval result inside `get_context_for_llm`. -/
def docBlock (r : RResult) : String :=
  "\n[Source: " ++ r.doc.source ++ " | Relevance: " ++ ratFmt2 r.score ++ "]\n"
    ++ r.doc.content ++ "\n"

/-- The packing loop of Tier 3's `get_context_for_llm`: append whole
documents while the running counted total stays within `max_tokens`, break
at the first overflow; returns the parts and the final running total. -/
def packDocs (counter : Counter) (maxT : Nat) :
    List RResult → Nat → List String × Nat
  | [], cur => ([], cur)
  | r :: rest, cur =>
    let dt := counter (docBlock r)
    if cur + dt ≤ maxT then
      let p := packDocs counter maxT rest (cur + dt)
      (docBlock r :: p.1, p.2)
    else ([], cur)

/-- Tier 3 `get_context_for_llm`: header (counted), then packed documents,
joined by newlines (the join separators are not counted). -/
def getContextForLLM3 (counter : Counter) (st : VectorState)
    (results : List RResult) (maxT? : Option Nat) : String :=
  let maxT := maxT?.getD st.maxTokens
  let p := packDocs counter maxT results (counter (strJoin "\n" [tier3Header]))
  strJoin "\n" (tier3Header :: p.1)

/-- The final running counted total of Tier 3's packing loop. -/
def tier3PackedTokens (counter : Counter) (maxT : Nat) (results : List RResult) : Nat :=
  (packDocs counter maxT results (counter tier3Header)).2

/- ===================== Concrete instances used in closed statements ===================== -/

/-- A tiny active window with a 1-token budget. -/
def c2Window : WindowState :=
  { maxTokens := 1, messages := [], keyPoints := [], systemMessage := none
    currentTokens := 0, totalProcessed := 0, saveCount := 0 }

/-- The message appended on every step of the 1001-append run: one token
under `lenCounter`. -/
def msgA (k : Nat) : Message :=
  { role := "user", content := "a", timestamp := k, tokens := 1, importance := 1/2 }

/-- A fresh window at the default ACTIVE tier budget (32000 tokens). -/
def c3Init : WindowState :=
  { maxTokens := 32000, messages := [], keyPoints := [], systemMessage := none
    currentTokens := 0, totalProcessed := 0, saveCount := 0 }

/-- `n` successive `add_message("user", "a")` calls on a fresh window. -/
def c3Iter : Nat → WindowState
  | 0 => c3Init
  | n + 1 => (addMessage lenCounter (c3Iter n) "user" "a" (1/2) n).2

/-- A two-sentence text whose second sentence out-scores its first. -/
def c7Text : String := "hello there. important note here"

/-- A one-message batch for the hierarchical-summary witness. -/
def c8Msgs : List MsgDict :=
  [{ role := "user", content := "Important: we must build a transformer", importance := 9/10, timestamp := 0 }]

def c8Hier : List (Nat × CompressedMem) := createHierarchicalSummary lenCounter c8Msgs 0

def c8L1 : CompressedMem := (getLevel c8Hier 1).getD default

def c8L2 : CompressedMem := (getLevel c8Hier 2).getD default

def c8L3 : CompressedMem := (getLevel c8Hier 3).getD default

/-- A concrete stand-in for Python's process-seeded builtin `hash` (the
claims proved with it do not depend on its values). -/
def c5Hash : String → Nat := fun s => s.data.foldl (fun a c => a * 31 + c.toNat) 7

/-- A window holding one five-character message. -/
def c6Window : WindowState :=
  { maxTokens := 32000
    messages := [{ role := "user", content := "hello", timestamp := 0, tokens := 5, importance := 1/2 }]
    keyPoints := []
    systemMessage := none
    currentTokens := 5
    totalProcessed := 1
    saveCount := 1 }

/-- A single retrieval result used by the Tier-3 render witness. -/
def c6Result : RResult :=
  { doc := { docId := "d1", content := "PyTorch is a deep learning framework"
             metadata := [], source := "documentation", tokenCount := 36 }
    score := 1/2
    rank := 1
    method := "hybrid" }

/-- A fresh retrieval state with caching on and no external backend. -/
def c9State : VectorState :=
  { documents := []
    cache := []
    enableCaching := true
    rerankEnabled := true
    rerankTopN := 5
    defaultTopK := 20
    defaultStrategy := "hybrid"
    maxTokens := 40000
    backend := none
    totalRetrievals := 0 }

/-- The state after the first (caching) `retrieve` call of the witness. -/
def c9StateAfter : VectorState :=
  { c9State with cache := [(cacheKey "q" 2 "bm25", [])], totalRetrievals := 1 }

/-- A document ingested between the two cached queries. -/
def c9Doc : Doc :=
  { docId := "d1", content := "transformers use attention"
    metadata := [], source := "user_provided", tokenCount := 0 }

/-- The rank fields of a result list are its 1-based positions. -/
def ranked (l : List RResult) : Prop :=
  l.map (fun r => r.rank) = List.range' 1 l.length

/-- The RRF term a ranked list contributes for a document: `1/(pos + 60)`
at the document's 1-based position in the list, 0 when absent. -/
def posTerm (l : List RResult) (id : String) : ℚ :=
  match l.findIdx? (fun r => r.doc.docId == id) with
  | some i => 1 / ((i : ℚ) + 1 + 60)
  | none => 0

/-- Sum of the RRF terms of every occurrence of a document in a list. -/
def sumTerms (l : List RResult) (id : String) : ℚ :=
  ((l.filter (fun r => r.doc.docId == id)).map (fun r => 1 / ((r.rank : ℚ) + 60))).sum

/-- The fused score stored for a document id (0 when absent). -/
def lookupScore (c : List (String × ℚ)) (id : String) : ℚ :=
  ((c.find? (fun p => p.1 == id)).map (fun p => p.2)).getD 0

/-- A two-document retrieval state for the hybrid-fusion witness. -/
def c4State : VectorState :=
  { documents :=
      [("d1", { docId := "d1", content := "Transformers use self attention", metadata := [], source := "ml_textbook", tokenCount := 31 }),
       ("d2", { docId := "d2", content := "BERT is a bidirectional transformer model", metadata := [], source := "research_paper", tokenCount := 41 })]
    cache := []
    enableCaching := true
    rerankEnabled := true
    rerankTopN := 5
    defaultTopK := 20
    defaultStrategy := "hybrid"
    maxTokens := 40000
    backend := none
    totalRetrievals := 0 }

/- ===================== Theorems ===================== -/

section

/- `Rat.add`/`Rat.mul`/`Rat.inv`/`Rat.sub` are `@[irreducible]` in
Batteries; evaluation-based proofs below need them unfolded. -/
attribute [local semireducible] Rat.add Rat.mul Rat.inv Rat.sub

theorem evictLoop_suffix (maxT now : Nat) :
    ∀ (l : List Message) (ct : ℤ) (kps : List KeyPoint),
      (evictLoop maxT now l ct kps).1 <:+ l := by
  intro l
  induction l with
  | nil => intro ct kps; simp [evictLoop]
  | cons m rest ih =>
    intro ct kps
    simp only [evictLoop]
    split
    · exact (ih _ _).trans (List.suffix_cons m rest)
    · exact List.suffix_refl _

theorem evictLoop_bound (maxT now : Nat) :
    ∀ (l : List Message) (ct : ℤ) (kps : List KeyPoint),
      (evictLoop maxT now l ct kps).2.1 ≤ (maxT : ℤ) ∨
        (evictLoop maxT now l ct kps).1.length ≤ 1 := by
  intro l
  induction l with
  | nil => intro ct kps; right; simp [evictLoop]
  | cons m rest ih =>
    intro ct kps
    simp only [evictLoop]
    split
    · exact ih _ _
    · rename_i hcond
      rcases not_and_or.mp hcond with h | h
      · left; show ct ≤ (maxT : ℤ); omega
      · right; simp [not_not.mp h]

theorem evictLoop_ne_nil (maxT now : Nat) :
    ∀ (l : List Message) (ct : ℤ) (kps : List KeyPoint), l ≠ [] →
      (evictLoop maxT now l ct kps).1 ≠ [] := by
  intro l
  induction l with
  | nil => intro ct kps h; exact absurd rfl h
  | cons m rest ih =>
    intro ct kps _
    simp only [evictLoop]
    split
    · rename_i hcond
      exact ih _ _ hcond.2
    · simp

theorem evictLoop_noop (maxT now : Nat) (l : List Message) (ct : ℤ)
    (kps : List KeyPoint) (h : ct ≤ (maxT : ℤ)) :
    evictLoop maxT now l ct kps = (l, ct, kps) := by
  cases l with
  | nil => simp [evictLoop]
  | cons m rest =>
    simp only [evictLoop]
    rw [if_neg]
    intro hc
    omega

/-- C10: a system-role `add_message` only replaces the stored system message
and returns the new `Message`; the deque, the running token counter, the key
points, the processed counter and the persistence path are all untouched. -/
theorem c10_theorem (counter : Counter) (st : WindowState) (content : String)
    (importance : ℚ) (now : Nat) :
    (addMessage counter st "system" content importance now).2.messages = st.messages ∧
    (addMessage counter st "system" content importance now).2.currentTokens = st.currentTokens ∧
    (addMessage counter st "system" content importance now).2.keyPoints = st.keyPoints ∧
    (addMessage counter st "system" content importance now).2.totalProcessed = st.totalProcessed ∧
    (addMessage counter st "system" content importance now).2.saveCount = st.saveCount ∧
    (addMessage counter st "system" content importance now).2.systemMessage =
      some (addMessage counter st "system" content importance now).1 ∧
    (addMessage counter st "system" content importance now).1.role = "system" ∧
    (addMessage counter st "system" content importance now).1.content = content ∧
    (addMessage counter st "system" content importance now).1.tokens = counter content := by
  simp [addMessage]

/-- C2 (counterexample): a single message larger than the whole window
budget is retained, so the running total exceeds `max_tokens` after the
call returns. -/
theorem c2_counterexample :
    ¬ ((addMessage lenCounter c2Window "user" "ab" (1/2) 0).2.currentTokens ≤
        ((addMessage lenCounter c2Window "user" "ab" (1/2) 0).2.maxTokens : ℤ)) := by
  decide

/-- C2 (amended): after every `add_message` either the running total is
within `max_tokens` or exactly one (over-sized) message remains; eviction
removes only from the head — the surviving window is a suffix of the old
window plus the new message — and at least one message is always retained. -/
theorem c2_theorem (counter : Counter) (st : WindowState) (role content : String)
    (importance : ℚ) (now : Nat) (h : role ≠ "system") :
    ((addMessage counter st role content importance now).2.currentTokens ≤ (st.maxTokens : ℤ) ∨
      (addMessage counter st role content importance now).2.messages.length = 1) ∧
    1 ≤ (addMessage counter st role content importance now).2.messages.length ∧
    (addMessage counter st role content importance now).2.messages <:+
      st.messages ++ [(addMessage counter st role content importance now).1] := by
  simp only [addMessage, if_neg h]
  refine ⟨?_, ?_, ?_⟩
  · rcases evictLoop_bound st.maxTokens now
      ((if st.messages.length = 1000 then st.messages.tail else st.messages) ++
        [{ role := role, content := content, timestamp := now,
           tokens := counter content, importance := importance }])
      (st.currentTokens + (counter content : ℤ)) st.keyPoints with hb | hb
    · exact Or.inl hb
    · right
      have hne := evictLoop_ne_nil st.maxTokens now
        ((if st.messages.length = 1000 then st.messages.tail else st.messages) ++
          [{ role := role, content := content, timestamp := now,
             tokens := counter content, importance := importance }])
        (st.currentTokens + (counter content : ℤ)) st.keyPoints (by simp)
      have := List.length_pos.mpr hne
      omega
  · have hne := evictLoop_ne_nil st.maxTokens now
      ((if st.messages.length = 1000 then st.messages.tail else st.messages) ++
        [{ role := role, content := content, timestamp := now,
           tokens := counter content, importance := importance }])
      (st.currentTokens + (counter content : ℤ)) st.keyPoints (by simp)
    have := List.length_pos.mpr hne
    omega
  · have hs := evictLoop_suffix st.maxTokens now
      ((if st.messages.length = 1000 then st.messages.tail else st.messages) ++
        [{ role := role, content := content, timestamp := now,
           tokens := counter content, importance := importance }])
      (st.currentTokens + (counter content : ℤ)) st.keyPoints
    refine hs.trans ?_
    have hbase : (if st.messages.length = 1000 then st.messages.tail else st.messages) <:+
        st.messages := by
      split
      · exact List.tail_suffix _
      · exact List.suffix_refl _
    obtain ⟨p, hp⟩ := hbase
    exact ⟨p, by rw [← List.append_assoc, hp]⟩

/-- C2 witness: the amended eviction guarantees at a concrete call. -/
theorem c2_witness :
    ("user" ≠ "system") ∧
    (((addMessage lenCounter c2Window "user" "ab" (1/2) 0).2.currentTokens ≤
        (c2Window.maxTokens : ℤ) ∨
      (addMessage lenCounter c2Window "user" "ab" (1/2) 0).2.messages.length = 1) ∧
    1 ≤ (addMessage lenCounter c2Window "user" "ab" (1/2) 0).2.messages.length ∧
    (addMessage lenCounter c2Window "user" "ab" (1/2) 0).2.messages <:+
      c2Window.messages ++ [(addMessage lenCounter c2Window "user" "ab" (1/2) 0).1]) :=
  ⟨by decide, c2_theorem lenCounter c2Window "user" "ab" (1/2) 0 (by decide)⟩



theorem msgA_indicator_none (now msgsLen recentLen idx k : Nat) :
    msgIndicatorKeyPoint now msgsLen recentLen idx (msgA k) = none := by
  have h : (indicatorList.any fun ind => strHasSub ind (strLower "a")) = false := by
    decide
  simp [msgIndicatorKeyPoint, msgA, h]

theorem extractKeyPoints_map_msgA (now : Nat) (l : List Nat) :
    extractKeyPoints now (l.map msgA) = [] := by
  unfold extractKeyPoints
  refine List.filterMap_eq_nil_iff.mpr ?_
  intro p hp
  rw [← List.map_drop, List.enum_map] at hp
  rcases List.mem_map.mp hp with ⟨q, _, hq⟩
  subst hq
  exact msgA_indicator_none _ _ _ _ _

theorem c3_inv (n : Nat) (h : n ≤ 1000) :
    c3Iter n =
      { maxTokens := 32000
        messages := (List.range n).map msgA
        keyPoints := []
        systemMessage := none
        currentTokens := (n : ℤ)
        totalProcessed := n
        saveCount := n } := by
  induction n with
  | zero => simp [c3Iter, c3Init]
  | succ n ih =>
    have hn : n ≤ 1000 := by omega
    rw [c3Iter, ih hn]
    simp only [addMessage]
    rw [if_neg (by decide : ¬ ("user" = "system"))]
    have hne : ¬ (((List.range n).map msgA).length = 1000) := by
      simp only [List.length_map, List.length_range]
      omega
    rw [if_neg hne]
    have hmsg : ({ role := "user", content := "a", timestamp := n, tokens := lenCounter "a", importance := 1/2 } : Message) = msgA n := rfl
    rw [hmsg]
    have happ : (List.range n).map msgA ++ [msgA n] = (List.range (n + 1)).map msgA := by
      rw [List.range_succ, List.map_append]
      simp
    rw [happ]
    have hone : ((lenCounter "a" : ℕ) : ℤ) = 1 := by decide
    have hev : evictLoop 32000 n ((List.range (n + 1)).map msgA)
        ((n : ℤ) + ((lenCounter "a" : ℕ) : ℤ)) []
        = ((List.range (n + 1)).map msgA, (n : ℤ) + ((lenCounter "a" : ℕ) : ℤ), []) := by
      refine evictLoop_noop _ _ _ _ _ ?_
      rw [hone]
      omega
    rw [hev]
    have hkps := extractKeyPoints_map_msgA n (List.range (n + 1))
    split <;> simp [hkps, hone]

set_option maxRecDepth 100000 in
/-- C3: evaluating the window after 1001 one-token appends.  The deque's
`maxlen=1000` silently drops the head on the 1001st append without touching
`current_tokens`, so the counter (1001) no longer equals the sum of the
stored messages' token counts (1000). -/
theorem c3_theorem :
    (c3Iter 1001).currentTokens = 1001 ∧ windowTokenSum (c3Iter 1001) = 1000 ∧
      (c3Iter 1001).currentTokens ≠ windowTokenSum (c3Iter 1001) := by
  have h1000 := c3_inv 1000 (by omega)
  have hstep : c3Iter 1001 = (addMessage lenCounter (c3Iter 1000) "user" "a" (1/2) 1000).2 := rfl
  have hone : ((lenCounter "a" : ℕ) : ℤ) = 1 := by decide
  have hfinal : c3Iter 1001 =
      { maxTokens := 32000
        messages := ((List.range 1000).tail ++ [1000]).map msgA
        keyPoints := []
        systemMessage := none
        currentTokens := ((1000 : ℕ) : ℤ) + ((lenCounter "a" : ℕ) : ℤ)
        totalProcessed := 1000 + 1
        saveCount := 1000 + 1 } := by
    rw [hstep, h1000]
    simp only [addMessage]
    rw [if_neg (by decide : ¬ ("user" = "system"))]
    have hlen : (((List.range 1000).map msgA).length = 1000) := by
      simp only [List.length_map, List.length_range]
    rw [if_pos hlen]
    have hmsg : ({ role := "user", content := "a", timestamp := 1000, tokens := lenCounter "a", importance := 1/2 } : Message) = msgA 1000 := rfl
    rw [hmsg]
    have htail : ((List.range 1000).map msgA).tail ++ [msgA 1000]
        = ((List.range 1000).tail ++ [1000]).map msgA := by
      rw [← List.map_tail, List.map_append]
      simp only [List.map_cons, List.map_nil]
    rw [htail]
    have hev : evictLoop 32000 1000 (((List.range 1000).tail ++ [1000]).map msgA)
        (((1000 : ℕ) : ℤ) + ((lenCounter "a" : ℕ) : ℤ)) []
        = ((((List.range 1000).tail ++ [1000]).map msgA), ((1000 : ℕ) : ℤ) + ((lenCounter "a" : ℕ) : ℤ), []) := by
      refine evictLoop_noop _ _ _ _ _ ?_
      rw [hone]
      omega
    rw [hev]
    rw [if_neg (by omega : ¬ ((1000 + 1) % 5 = 0))]
  have hsumgen : ∀ (l : List Nat), ((l.map msgA).map (fun m => (m.tokens : ℤ))).sum = l.length := by
    intro l
    rw [List.map_map]
    have hfun : ((fun m => (m.tokens : ℤ)) ∘ msgA) = Function.const Nat (1 : ℤ) := by
      funext k
      simp [msgA]
    rw [hfun, List.map_const, List.sum_replicate]
    simp
  have hlen2 : ((List.range 1000).tail ++ [1000]).length = 1000 := by
    simp [List.length_tail]
  have hsum : windowTokenSum (c3Iter 1001) = 1000 := by
    rw [hfinal]
    unfold windowTokenSum
    rw [hsumgen, hlen2]
    rfl
  have hct : (c3Iter 1001).currentTokens = 1001 := by
    rw [hfinal]
    show ((1000 : ℕ) : ℤ) + ((lenCounter "a" : ℕ) : ℤ) = 1001
    rw [hone]
    norm_num
  refine ⟨hct, hsum, ?_⟩
  rw [hct, hsum]
  omega

theorem packSentences_eq_take_map (c : Counter) (T : Nat) :
    ∀ (l : List (String × Nat)) (cur : Nat),
      ∃ k, packSentences c T l cur = (l.take k).map Prod.fst := by
  intro l
  induction l with
  | nil => intro cur; exact ⟨0, rfl⟩
  | cons x rest ih =>
    intro cur
    cases x with
    | mk s sc =>
      rw [packSentences]
      split
      · obtain ⟨k, hk⟩ := ih (cur + c s)
        exact ⟨k + 1, by rw [hk]; rfl⟩
      · exact ⟨0, rfl⟩

theorem packSentences_sum_le (c : Counter) (T : Nat) :
    ∀ (l : List (String × Nat)) (cur : Nat), cur ≤ T →
      cur + ((packSentences c T l cur).map c).sum ≤ T := by
  intro l
  induction l with
  | nil => intro cur h; simpa using h
  | cons x rest ih =>
    intro cur h
    cases x with
    | mk s sc =>
      rw [packSentences]
      split
      · rename_i hfit
        have := ih (cur + c s) hfit
        simp only [List.map_cons, List.sum_cons]
        omega
      · simpa using h

theorem stableInsert_perm {α : Type} (le : α → α → Bool) (x : α) :
    ∀ l : List α, (stableInsert le x l).Perm (x :: l) := by
  intro l
  induction l with
  | nil => exact List.Perm.refl _
  | cons y ys ih =>
    rw [stableInsert]
    split
    · exact List.Perm.refl _
    · exact (ih.cons y).trans (List.Perm.swap x y ys)

theorem pySortBy_perm {α : Type} (le : α → α → Bool) :
    ∀ l : List α, (pySortBy le l).Perm l := by
  intro l
  induction l with
  | nil => exact List.Perm.refl _
  | cons x xs ih => exact (stableInsert_perm le x _).trans (ih.cons x)

theorem stableInsert_pairwise {α : Type} (le : α → α → Bool)
    (htrans : ∀ a b c, le a b = true → le b c = true → le a c = true)
    (htot : ∀ a b, le a b = true ∨ le b a = true) (x : α) :
    ∀ l : List α, List.Pairwise (fun a b => le a b = true) l →
      List.Pairwise (fun a b => le a b = true) (stableInsert le x l) := by
  intro l
  induction l with
  | nil => intro _; simp [stableInsert]
  | cons y ys ih =>
    intro h
    rcases List.pairwise_cons.mp h with ⟨hy, hys⟩
    rw [stableInsert]
    split
    · rename_i hxy
      refine List.pairwise_cons.mpr ⟨?_, h⟩
      intro z hz
      rcases List.mem_cons.mp hz with rfl | hz
      · exact hxy
      · exact htrans x y z hxy (hy z hz)
    · rename_i hxy
      refine List.pairwise_cons.mpr ⟨?_, ih hys⟩
      intro z hz
      have hz' := (stableInsert_perm le x ys).mem_iff.mp hz
      rcases List.mem_cons.mp hz' with heq | hz'
      · rw [heq]
        rcases htot x y with h1 | h1
        · exact absurd h1 (by simpa using hxy)
        · exact h1
      · exact hy z hz'

theorem pySortBy_pairwise {α : Type} (le : α → α → Bool)
    (htrans : ∀ a b c, le a b = true → le b c = true → le a c = true)
    (htot : ∀ a b, le a b = true ∨ le b a = true) :
    ∀ l : List α, List.Pairwise (fun a b => le a b = true) (pySortBy le l) := by
  intro l
  induction l with
  | nil => simp [pySortBy]
  | cons x xs ih => exact stableInsert_pairwise le htrans htot x _ ih

theorem sortedSentences_pairwise (text : String) :
    List.Pairwise (fun a b : String × Nat => b.2 ≤ a.2) (sortedSentences text) := by
  have h := pySortBy_pairwise (fun a b : String × Nat => decide (b.2 ≤ a.2))
    (fun a b c hab hbc => by
      simp only [decide_eq_true_eq] at hab hbc ⊢
      omega)
    (fun a b => by
      rcases Nat.le_total b.2 a.2 with h1 | h1
      · exact Or.inl (by simpa using h1)
      · exact Or.inr (by simpa using h1))
    (scoredSentences text)
  exact h.imp (fun hle => by simpa using hle)

theorem sortedSentences_snd (text : String) :
    ∀ p ∈ sortedSentences text, p.2 = sentenceScore p.1 := by
  intro p hp
  have hm : p ∈ scoredSentences text :=
    (pySortBy_perm _ (scoredSentences text)).mem_iff.mp hp
  rcases List.mem_map.mp hm with ⟨s, _, rfl⟩
  rfl

/-- C7 (counterexample): on a two-sentence input the higher-scoring second
sentence is emitted first, so the selection is not in source order. -/
theorem c7_counterexample :
    extractiveSelect lenCounter c7Text 1000 = ["important note here", "hello there"] ∧
    pySplitDot c7Text = ["hello there", "important note here"] ∧
    ¬ List.Sublist (extractiveSelect lenCounter c7Text 1000) (pySplitDot c7Text) := by
  decide

/-- C7 (amended): extractive compression is a pure function of its input
(deterministic), scores sentences by keyword hits plus a fixed user bonus,
and greedily packs sentences within the token target — but the selection is
emitted in descending score order (stable on ties), not in source order. -/
theorem c7_theorem (counter : Counter) (text : String) (target : Nat) :
    List.Pairwise (fun a b => sentenceScore b ≤ sentenceScore a)
      (extractiveSelect counter text target) ∧
    ((extractiveSelect counter text target).map counter).sum ≤ target ∧
    extractiveCompress counter text target
      = strJoin ". " (extractiveSelect counter text target) ++ "." := by
  refine ⟨?_, ?_, rfl⟩
  · obtain ⟨k, hk⟩ := packSentences_eq_take_map counter target (sortedSentences text) 0
    unfold extractiveSelect
    rw [hk]
    refine List.pairwise_map.mpr ?_
    have hpw : List.Pairwise (fun a b : String × Nat => b.2 ≤ a.2)
        ((sortedSentences text).take k) :=
      List.Pairwise.sublist (List.take_sublist k _) (sortedSentences_pairwise text)
    refine hpw.imp_of_mem ?_
    intro a b ha hb hle
    have ha' := sortedSentences_snd text a (List.take_subset k _ ha)
    have hb' := sortedSentences_snd text b (List.take_subset k _ hb)
    rw [← ha', ← hb']
    exact hle
  · have := packSentences_sum_le counter target (sortedSentences text) 0 (Nat.zero_le _)
    simpa [extractiveSelect] using this

theorem packSentences_mono (c : Counter) (T1 T2 : Nat) (h : T1 ≤ T2) :
    ∀ (l : List (String × Nat)) (cur : Nat),
      ∃ q, packSentences c T2 l cur = packSentences c T1 l cur ++ q := by
  intro l
  induction l with
  | nil => intro cur; exact ⟨[], rfl⟩
  | cons x rest ih =>
    intro cur
    cases x with
    | mk s sc =>
      rw [packSentences, packSentences]
      by_cases h1 : cur + c s ≤ T1
      · rw [if_pos h1, if_pos (le_trans h1 h)]
        obtain ⟨q, hq⟩ := ih (cur + c s)
        exact ⟨q, by rw [hq]; rfl⟩
      · rw [if_neg h1]
        exact ⟨_, (List.nil_append _).symm⟩

theorem strJoin_append (sep : String) :
    ∀ (p q : List String), p ≠ [] → q ≠ [] →
      strJoin sep (p ++ q) = strJoin sep p ++ sep ++ strJoin sep q := by
  intro p
  induction p with
  | nil => intro q hp _; exact absurd rfl hp
  | cons x p ih =>
    intro q _ hq
    cases p with
    | nil =>
      cases q with
      | nil => exact absurd rfl hq
      | cons y q => rfl
    | cons z p2 =>
      have hih := ih q (by simp) hq
      show x ++ sep ++ strJoin sep ((z :: p2) ++ q) = (x ++ sep ++ strJoin sep (z :: p2)) ++ sep ++ strJoin sep q
      rw [hih, ← String.append_assoc, ← String.append_assoc]

theorem extractiveCompress_mono (counter : Counter)
    (hpre : ∀ s t : String, counter s ≤ counter (s ++ t))
    (hsuf : ∀ s t : String, counter t ≤ counter (s ++ t))
    (text : String) (T1 T2 : Nat) (h : T1 ≤ T2) :
    counter (extractiveCompress counter text T1)
      ≤ counter (extractiveCompress counter text T2) := by
  obtain ⟨q, hq⟩ := packSentences_mono counter T1 T2 h (sortedSentences text) 0
  unfold extractiveCompress extractiveSelect
  rw [hq]
  by_cases hq0 : q = []
  · rw [hq0, List.append_nil]
  · by_cases hp0 : packSentences counter T1 (sortedSentences text) 0 = []
    · rw [hp0, List.nil_append]
      have h1 : strJoin ". " ([] : List String) ++ "." = "." := rfl
      rw [h1]
      exact hsuf (strJoin ". " q) "."
    · rw [strJoin_append ". " _ q hp0 hq0]
      have h2 : strJoin ". " (packSentences counter T1 (sortedSentences text) 0) ++ ". "
            ++ strJoin ". " q ++ "."
          = (strJoin ". " (packSentences counter T1 (sortedSentences text) 0) ++ ".")
            ++ (" " ++ (strJoin ". " q ++ ".")) := by
        have hsep : (". " : String) = "." ++ " " := rfl
        rw [hsep, ← String.append_assoc, ← String.append_assoc, ← String.append_assoc]
      rw [h2]
      exact hpre _ _

/-- C8: in every hierarchical summary the level token counts are
non-increasing as the level number decreases (ultra ≤ mid ≤ detailed),
provided the pluggable token counter is monotone under appending text on
either side (true of any length-like counter). -/
theorem c8_theorem (counter : Counter) (msgs : List MsgDict) (now : Nat)
    (c1 c2 c3 : CompressedMem)
    (hpre : ∀ s t : String, counter s ≤ counter (s ++ t))
    (hsuf : ∀ s t : String, counter t ≤ counter (s ++ t))
    (h1 : getLevel (createHierarchicalSummary counter msgs now) 1 = some c1)
    (h2 : getLevel (createHierarchicalSummary counter msgs now) 2 = some c2)
    (h3 : getLevel (createHierarchicalSummary counter msgs now) 3 = some c3) :
    c1.tokenCount ≤ c2.tokenCount ∧ c2.tokenCount ≤ c3.tokenCount := by
  have e1 : c1 = compressAtLevel counter (formatMessages msgs) msgs 100 now := by
    have : getLevel (createHierarchicalSummary counter msgs now) 1
        = some (compressAtLevel counter (formatMessages msgs) msgs 100 now) := rfl
    rw [this] at h1
    exact (Option.some.inj h1).symm
  have e2 : c2 = compressAtLevel counter (formatMessages msgs) msgs 500 now := by
    have : getLevel (createHierarchicalSummary counter msgs now) 2
        = some (compressAtLevel counter (formatMessages msgs) msgs 500 now) := rfl
    rw [this] at h2
    exact (Option.some.inj h2).symm
  have e3 : c3 = compressAtLevel counter (formatMessages msgs) msgs 2000 now := by
    have : getLevel (createHierarchicalSummary counter msgs now) 3
        = some (compressAtLevel counter (formatMessages msgs) msgs 2000 now) := rfl
    rw [this] at h3
    exact (Option.some.inj h3).symm
  rw [e1, e2, e3]
  exact ⟨extractiveCompress_mono counter hpre hsuf _ 100 500 (by omega),
    extractiveCompress_mono counter hpre hsuf _ 500 2000 (by omega)⟩

/-- C8 witness: the level monotonicity at a concrete one-message batch with
the length counter. -/
theorem c8_witness :
    ((∀ s t : String, lenCounter s ≤ lenCounter (s ++ t)) ∧
     (∀ s t : String, lenCounter t ≤ lenCounter (s ++ t)) ∧
     getLevel c8Hier 1 = some c8L1 ∧
     getLevel c8Hier 2 = some c8L2 ∧
     getLevel c8Hier 3 = some c8L3) ∧
    (c8L1.tokenCount ≤ c8L2.tokenCount ∧ c8L2.tokenCount ≤ c8L3.tokenCount) := by
  have hpre : ∀ s t : String, lenCounter s ≤ lenCounter (s ++ t) := by
    intro s t
    simp [lenCounter, String.length_append]
  have hsuf : ∀ s t : String, lenCounter t ≤ lenCounter (s ++ t) := by
    intro s t
    simp [lenCounter, String.length_append]
  have g1 : getLevel c8Hier 1 = some c8L1 := rfl
  have g2 : getLevel c8Hier 2 = some c8L2 := rfl
  have g3 : getLevel c8Hier 3 = some c8L3 := rfl
  exact ⟨⟨hpre, hsuf, g1, g2, g3⟩,
    c8_theorem lenCounter c8Msgs 0 c8L1 c8L2 c8L3 hpre hsuf g1 g2 g3⟩

theorem tierWeights_nonneg_sum (hist knows ent : Bool) :
    0 ≤ (tierWeights hist knows ent).1 ∧ 0 ≤ (tierWeights hist knows ent).2.1 ∧
    0 ≤ (tierWeights hist knows ent).2.2.1 ∧ 0 ≤ (tierWeights hist knows ent).2.2.2 ∧
    (tierWeights hist knows ent).1 + (tierWeights hist knows ent).2.1
      + (tierWeights hist knows ent).2.2.1 + (tierWeights hist knows ent).2.2.2 = 1 := by
  cases hist <;> cases knows <;> cases ent <;>
    refine ⟨by norm_num [tierWeights], by norm_num [tierWeights],
      by norm_num [tierWeights], by norm_num [tierWeights], by norm_num [tierWeights]⟩

theorem pyInt_eq_floor (q : ℚ) (h : 0 ≤ q) : pyInt q = ⌊q⌋ := by
  unfold pyInt
  rw [if_pos h]
  rfl

theorem floor_weight_sum (a : ℤ) (w1 w2 w3 w4 : ℚ)
    (h1 : 0 ≤ w1) (h2 : 0 ≤ w2) (h3 : 0 ≤ w3) (h4 : 0 ≤ w4)
    (hsum : w1 + w2 + w3 + w4 = 1) :
    a - 3 ≤ ⌊(a : ℚ) * w1⌋ + ⌊(a : ℚ) * w2⌋ + ⌊(a : ℚ) * w3⌋ + ⌊(a : ℚ) * w4⌋ ∧
    ⌊(a : ℚ) * w1⌋ + ⌊(a : ℚ) * w2⌋ + ⌊(a : ℚ) * w3⌋ + ⌊(a : ℚ) * w4⌋ ≤ a := by
  have key : (a : ℚ) * w1 + (a : ℚ) * w2 + (a : ℚ) * w3 + (a : ℚ) * w4 = (a : ℚ) := by
    have : (a : ℚ) * w1 + (a : ℚ) * w2 + (a : ℚ) * w3 + (a : ℚ) * w4
        = (a : ℚ) * (w1 + w2 + w3 + w4) := by ring
    rw [this, hsum, mul_one]
  have hle1 := Int.floor_le ((a : ℚ) * w1)
  have hle2 := Int.floor_le ((a : ℚ) * w2)
  have hle3 := Int.floor_le ((a : ℚ) * w3)
  have hle4 := Int.floor_le ((a : ℚ) * w4)
  have hgt1 := Int.lt_floor_add_one ((a : ℚ) * w1)
  have hgt2 := Int.lt_floor_add_one ((a : ℚ) * w2)
  have hgt3 := Int.lt_floor_add_one ((a : ℚ) * w3)
  have hgt4 := Int.lt_floor_add_one ((a : ℚ) * w4)
  constructor
  · have hq : (a : ℚ) - 3
        < ((⌊(a : ℚ) * w1⌋ + ⌊(a : ℚ) * w2⌋ + ⌊(a : ℚ) * w3⌋ + ⌊(a : ℚ) * w4⌋ : ℤ) : ℚ) + 1 := by
      push_cast
      linarith
    have : (a : ℚ) - 3 - 1
        < ((⌊(a : ℚ) * w1⌋ + ⌊(a : ℚ) * w2⌋ + ⌊(a : ℚ) * w3⌋ + ⌊(a : ℚ) * w4⌋ : ℤ) : ℚ) := by
      linarith
    have hz : (a : ℤ) - 3 - 1 < ⌊(a : ℚ) * w1⌋ + ⌊(a : ℚ) * w2⌋ + ⌊(a : ℚ) * w3⌋ + ⌊(a : ℚ) * w4⌋ := by
      exact_mod_cast this
    omega
  · have hq : ((⌊(a : ℚ) * w1⌋ + ⌊(a : ℚ) * w2⌋ + ⌊(a : ℚ) * w3⌋ + ⌊(a : ℚ) * w4⌋ : ℤ) : ℚ)
        ≤ (a : ℚ) := by
      push_cast
      linarith
    exact_mod_cast hq

theorem budgetFrom_total (b1 b2 b3 : Bool) (a : ℤ) (ha : 0 ≤ a) :
    a + 500 - 3 ≤ (budgetFrom b1 b2 b3 a).total ∧ (budgetFrom b1 b2 b3 a).total ≤ a + 500 := by
  obtain ⟨h1, h2, h3, h4, hsum⟩ := tierWeights_nonneg_sum b1 b2 b3
  have haq : (0 : ℚ) ≤ (a : ℚ) := by exact_mod_cast ha
  simp only [budgetFrom, ContextBudget.total, hsum, div_one]
  rw [pyInt_eq_floor _ (mul_nonneg haq h1), pyInt_eq_floor _ (mul_nonneg haq h2),
    pyInt_eq_floor _ (mul_nonneg haq h3), pyInt_eq_floor _ (mul_nonneg haq h4)]
  have := floor_weight_sum a _ _ _ _ h1 h2 h3 h4 hsum
  omega

/-- C1 (counterexample): at `maxTokens = 501` every tier allocation floors
to zero, so the components sum to 500, not 501. -/
theorem c1_counterexample :
    (allocateTokenBudget [] 501 "").total = 500 ∧
      (allocateTokenBudget [] 501 "").total ≠ 501 := by
  decide

/-- C1 (amended): for every query, entity state and `maxTokens ≥ 500`, the
`ContextBudget` components (four tiers plus the 500-token system-prompt
reserve) sum to at most `maxTokens` and to at least `maxTokens - 3`: each
tier allocation is floored by `int()`, so up to three tokens of the
post-reserve budget are dropped rather than allocated. -/
theorem c1_theorem (entities : List Entity) (maxTokens : ℤ) (query : String)
    (h : 500 ≤ maxTokens) :
    maxTokens - 3 ≤ (allocateTokenBudget entities maxTokens query).total ∧
      (allocateTokenBudget entities maxTokens query).total ≤ maxTokens := by
  have ha : 0 ≤ maxTokens - 500 := by omega
  have := budgetFrom_total
    (historyWords.any (fun w => strHasSub w (strLower query)))
    (knowledgeWords.any (fun w => strHasSub w (strLower query)))
    (!(getRelevantEntities entities query 3).isEmpty)
    (maxTokens - 500) ha
  have heq : allocateTokenBudget entities maxTokens query
      = budgetFrom
        (historyWords.any (fun w => strHasSub w (strLower query)))
        (knowledgeWords.any (fun w => strHasSub w (strLower query)))
        (!(getRelevantEntities entities query 3).isEmpty)
        (maxTokens - 500) := rfl
  rw [heq]
  omega

/-- C1 witness: the amended bounds at a concrete 1000-token request. -/
theorem c1_witness :
    ((500 : ℤ) ≤ 1000) ∧
    ((1000 : ℤ) - 3 ≤ (allocateTokenBudget [] 1000 "").total ∧
      (allocateTokenBudget [] 1000 "").total ≤ 1000) :=
  ⟨by norm_num, c1_theorem [] 1000 "" (by norm_num)⟩


/-- C5 (counterexample): upserting the extracted name "Alice" twice with
different attribute maps leaves a single entity whose `mention_count` is 1,
not 2 — extraction builds entities with the dataclass default
`mention_count = 0` and only the merge increments it. -/
theorem c5_counterexample :
    ((storeExtractedEntities c5Hash
      (storeExtractedEntities c5Hash emptyEntityGraph
        [{ name := "Alice", etype := "PERSON", importance := 1/2 }] [("k1", "v1")] 1).2
      [{ name := "Alice", etype := "PERSON", importance := 1/2 }] [("k2", "v2")] 2).2).entities.length = 1 ∧
    ∀ p ∈ ((storeExtractedEntities c5Hash
      (storeExtractedEntities c5Hash emptyEntityGraph
        [{ name := "Alice", etype := "PERSON", importance := 1/2 }] [("k1", "v1")] 1).2
      [{ name := "Alice", etype := "PERSON", importance := 1/2 }] [("k2", "v2")] 2).2).entities,
      p.2.mentionCount = 1 ∧ ¬ (p.2.mentionCount = 2) := by
  decide

/-- C5 (amended): entity identity is `hash` of the exact (case-sensitive)
extracted name modulo 1000000, so upserting the same name twice (same
letter case) yields a single entity whose `mention_count` is 1 (created at
the dataclass default 0 and incremented only on the merge), whose
attributes are the dict-update of the first call's context with the
second's (second write wins on key collisions), and whose `last_mentioned`
is bumped by the second upsert. -/
theorem c5_theorem (pyHash : String → Nat) (name ty1 ty2 : String)
    (imp1 imp2 : ℚ) (ctx1 ctx2 : List (String × String)) (t1 t2 : Nat) :
    ∃ e : Entity,
      ((storeExtractedEntities pyHash
        (storeExtractedEntities pyHash emptyEntityGraph
          [{ name := name, etype := ty1, importance := imp1 }] ctx1 t1).2
        [{ name := name, etype := ty2, importance := imp2 }] ctx2 t2).2).entities
        = [(entityIdOf pyHash name, e)] ∧
      e.mentionCount = 1 ∧ e.attributes = dictUpdate ctx1 ctx2 ∧
      e.lastMentioned = t2 ∧ e.firstMentioned = t1 ∧ e.name = name := by
  refine ⟨{ entityId := entityIdOf pyHash name
            name := name
            entityType := ty1
            attributes := dictUpdate ctx1 ctx2
            firstMentioned := t1
            lastMentioned := t2
            mentionCount := 1
            importance := imp1 }, ?_, rfl, rfl, rfl, rfl, rfl⟩
  simp [storeExtractedEntities, addEntity, dictFind, dictInsert, emptyEntityGraph]

/-- C6 (counterexample): with `maxTokens = 500` every tier allocation is 0,
yet Tier 1's render (which takes no budget argument at all) still returns
the full window, whose content tokens exceed the zero tier-1 component. -/
theorem c6_counterexample :
    (allocateTokenBudget [] 500 "").tier1Active = 0 ∧
    getContextForLLM1 c6Window true = [("user", "hello")] ∧
    ¬ (((getContextForLLM1 c6Window true).map (fun p => (lenCounter p.2 : ℤ))).sum
        ≤ (allocateTokenBudget [] 500 "").tier1Active) := by
  decide

theorem packDocs_le (counter : Counter) (maxT : Nat) :
    ∀ (rs : List RResult) (cur : Nat), cur ≤ maxT →
      (packDocs counter maxT rs cur).2 ≤ maxT := by
  intro rs
  induction rs with
  | nil => intro cur h; simpa [packDocs] using h
  | cons r rest ih =>
    intro cur h
    rw [packDocs]
    split
    · rename_i hfit
      exact ih _ hfit
    · simpa using h

/-- C6 (amended): only Tiers 2–4 receive their budget component as an
input; Tier 1's render is uncapped.  For Tier 3's render, whenever the
fixed header itself fits, the running counted total (header plus appended
whole documents) never exceeds the given `max_tokens`; the newline join
separators are not counted. -/
theorem c6_theorem (counter : Counter) (maxT : Nat) (results : List RResult)
    (h : counter tier3Header ≤ maxT) :
    tier3PackedTokens counter maxT results ≤ maxT ∧
    ∀ (st : VectorState), getContextForLLM3 counter st results (some maxT)
      = strJoin "\n" (tier3Header :: (packDocs counter maxT results (counter tier3Header)).1) := by
  refine ⟨packDocs_le counter maxT results _ h, ?_⟩
  intro st
  rfl

/-- C6 witness: the Tier-3 packing bound at a concrete result list. -/
theorem c6_witness :
    (lenCounter tier3Header ≤ 200) ∧
    (tier3PackedTokens lenCounter 200 [c6Result] ≤ 200 ∧
     ∀ (st : VectorState), getContextForLLM3 lenCounter st [c6Result] (some 200)
       = strJoin "\n" (tier3Header :: (packDocs lenCounter 200 [c6Result] (lenCounter tier3Header)).1)) :=
  ⟨by decide, c6_theorem lenCounter 200 [c6Result] (by decide)⟩

end

theorem find_map_update {V : Type} (k : String) (v : V) :
    ∀ (d : List (String × V)), (d.any (fun p => p.1 == k)) = true →
      (d.map (fun p => if p.1 == k then (k, v) else p)).find? (fun p => p.1 == k)
        = some (k, v) := by
  intro d
  induction d with
  | nil => intro h; simp at h
  | cons p rest ih =>
    intro h
    by_cases hp : (p.1 == k) = true
    · simp [List.find?, hp]
    · have h2 : rest.any (fun p => p.1 == k) = true := by
        rcases List.any_eq_true.mp h with ⟨x, hx, hxk⟩
        rcases List.mem_cons.mp hx with heq | hx
        · rw [heq] at hxk
          exact absurd hxk hp
        · exact List.any_eq_true.mpr ⟨x, hx, hxk⟩
      rw [List.map_cons, if_neg hp]
      rw [@List.find?_cons_of_neg _ (fun q => q.1 == k) p _ hp]
      exact ih h2

theorem find_append_single {V : Type} (k : String) (v : V) :
    ∀ (d : List (String × V)), (d.any (fun p => p.1 == k)) = false →
      (d ++ [(k, v)]).find? (fun p => p.1 == k) = some (k, v) := by
  intro d
  induction d with
  | nil =>
    intro _
    simp [List.find?]
  | cons p rest ih =>
    intro h
    rw [List.any_cons] at h
    rcases Bool.or_eq_false_iff.mp h with ⟨hp, hrest⟩
    rw [List.cons_append, List.find?]
    rw [hp]
    exact ih hrest

theorem dictFind_insert_self {V : Type} (d : List (String × V)) (k : String) (v : V) :
    dictFind (dictInsert d k v) k = some v := by
  unfold dictInsert
  split
  · rename_i hany
    unfold dictFind
    rw [find_map_update k v d hany]
    rfl
  · rename_i hany
    unfold dictFind
    rw [find_append_single k v d (Bool.eq_false_iff.mpr hany)]
    rfl

theorem retrieve_ok_cache (st : VectorState) (q : String) (k : Nat)
    (filters : List (String × String)) (s : String) (r1 : List RResult)
    (st1 : VectorState) (hc : st.enableCaching = true)
    (h1 : retrieve st q (some k) filters (some s) = .ok (r1, st1)) :
    dictFind st1.cache (cacheKey q k s) = some r1 ∧ st1.enableCaching = true := by
  unfold retrieve at h1
  simp only [Option.getD_some, hc, Bool.and_true] at h1
  cases hfind : dictFind st.cache (cacheKey q k s) with
  | some cached =>
    rw [hfind] at h1
    simp only [Option.isSome_some, if_true, Option.getD_some] at h1
    obtain ⟨hr, hst⟩ := Prod.mk.injEq _ _ _ _ ▸ Except.ok.inj h1
    rw [← hst, ← hr, hfind]
    exact ⟨rfl, hc⟩
  | none =>
    rw [hfind] at h1
    simp only [Option.isSome_none, Bool.false_eq_true, if_false] at h1
    split at h1
    · exact absurd h1 (by simp)
    · rename_i r0 hr0
      simp only [hc, if_true] at h1
      obtain ⟨hr, hst⟩ := Prod.mk.injEq _ _ _ _ ▸ Except.ok.inj h1
      rw [← hst, ← hr]
      exact ⟨dictFind_insert_self _ _ _, rfl⟩

/-- C9: retrieval results are cached under `(query, topK, strategy)` and
`add_documents` never touches the cache, so repeating a cached query after
any document ingestion returns exactly the first call's result list. -/
theorem c9_theorem (counter : Counter) (st : VectorState) (q : String) (k : Nat)
    (filters : List (String × String)) (s : String) (docs : List Doc)
    (r1 : List RResult) (st1 : VectorState)
    (hc : st.enableCaching = true)
    (h1 : retrieve st q (some k) filters (some s) = .ok (r1, st1)) :
    retrieve (addDocuments counter st1 docs) q (some k) filters (some s)
      = .ok (r1, addDocuments counter st1 docs) := by
  obtain ⟨hcache, hflag⟩ := retrieve_ok_cache st q k filters s r1 st1 hc h1
  have h2 : dictFind (addDocuments counter st1 docs).cache (cacheKey q k s) = some r1 := hcache
  have h3 : (addDocuments counter st1 docs).enableCaching = true := hflag
  unfold retrieve
  simp only [Option.getD_some, h2, h3, Option.isSome_some, Bool.and_true, if_true,
    Option.getD_some]

/-- C9 witness: a concrete cached bm25 query repeated after ingesting a new
document returns the first call's (cached) results. -/
theorem c9_witness :
    (c9State.enableCaching = true ∧
     retrieve c9State "q" (some 2) [] (some "bm25") = .ok ([], c9StateAfter)) ∧
    retrieve (addDocuments lenCounter c9StateAfter [c9Doc]) "q" (some 2) [] (some "bm25")
      = .ok ([], addDocuments lenCounter c9StateAfter [c9Doc]) :=
  ⟨⟨rfl, rfl⟩,
    c9_theorem lenCounter c9State "q" 2 [] "bm25" [c9Doc] [] c9StateAfter rfl rfl⟩

theorem lookup_update_other (id j : String) (v : ℚ) (hj : ¬ (j = id)) :
    ∀ c : List (String × ℚ),
      lookupScore (c.map (fun p => if p.1 == id then (p.1, p.2 + v) else p)) j
        = lookupScore c j := by
  intro c
  induction c with
  | nil => rfl
  | cons p rest ih =>
    by_cases hp : (p.1 == j) = true
    · have hpid : ¬ ((p.1 == id) = true) := by
        intro hx
        exact hj ((eq_of_beq hp).symm.trans (eq_of_beq hx))
      unfold lookupScore
      rw [List.map_cons, if_neg hpid,
        @List.find?_cons_of_pos _ (fun q => q.1 == j) p _ hp,
        @List.find?_cons_of_pos _ (fun q => q.1 == j) p _ hp]
    · unfold lookupScore
      rw [List.map_cons]
      by_cases hpid : (p.1 == id) = true
      · rw [if_pos hpid]
        rw [@List.find?_cons_of_neg _ (fun p => p.1 == j) (p.1, p.2 + v) _ hp,
          @List.find?_cons_of_neg _ (fun p => p.1 == j) p _ hp]
        exact ih
      · rw [if_neg hpid]
        rw [@List.find?_cons_of_neg _ (fun p => p.1 == j) p _ hp,
          @List.find?_cons_of_neg _ (fun p => p.1 == j) p _ hp]
        exact ih

theorem lookup_update_self (id : String) (v : ℚ) :
    ∀ c : List (String × ℚ),
      lookupScore (c.map (fun p => if p.1 == id then (p.1, p.2 + v) else p)) id
        = lookupScore c id + (if (c.any (fun p => p.1 == id)) = true then v else 0) := by
  intro c
  induction c with
  | nil => simp [lookupScore]
  | cons p rest ih =>
    by_cases hp : (p.1 == id) = true
    · unfold lookupScore
      rw [List.map_cons, if_pos hp, List.any_cons, hp, Bool.true_or, if_pos rfl,
        @List.find?_cons_of_pos _ (fun q => q.1 == id) (p.1, p.2 + v) _ hp,
        @List.find?_cons_of_pos _ (fun q => q.1 == id) p _ hp]
      rfl
    · unfold lookupScore
      rw [List.map_cons, if_neg hp, List.any_cons,
        @List.find?_cons_of_neg _ (fun p => p.1 == id) p _ hp,
        @List.find?_cons_of_neg _ (fun p => p.1 == id) p _ hp]
      have hpf : (p.1 == id) = false := Bool.eq_false_iff.mpr hp
      rw [hpf, Bool.false_or]
      exact ih

theorem lookupScore_bump (id j : String) (v : ℚ) (c : List (String × ℚ)) :
    lookupScore (rrfBump c id v) j = lookupScore c j + (if j = id then v else 0) := by
  unfold rrfBump
  split
  · rename_i hany
    by_cases hj : j = id
    · rw [hj, lookup_update_self id v c, hany, if_pos rfl, if_pos rfl]
    · rw [lookup_update_other id j v hj c, if_neg hj, add_zero]
  · rename_i hany
    have hanyf : (c.any (fun p => p.1 == id)) = false := Bool.eq_false_iff.mpr hany
    by_cases hj : j = id
    · rw [hj, if_pos rfl]
      have hnone : c.find? (fun p => p.1 == id) = none := by
        refine List.find?_eq_none.mpr ?_
        intro x hx hxk
        have hT : (c.any (fun p => p.1 == id)) = true := List.any_eq_true.mpr ⟨x, hx, hxk⟩
        rw [hanyf] at hT
        exact Bool.false_ne_true hT
      unfold lookupScore
      rw [find_append_single id v c hanyf, hnone]
      simp
    · rw [if_neg hj, add_zero]
      unfold lookupScore
      rw [List.find?_append]
      have hlast : List.find? (fun p => p.1 == j) [(id, v)] = none := by
        refine List.find?_eq_none.mpr ?_
        intro x hx hxk
        rcases List.mem_singleton.mp hx with rfl
        exact hj (eq_of_beq hxk).symm
      rw [hlast]
      cases List.find? (fun p => p.1 == j) c <;> rfl

theorem lookupScore_rrfFold (j : String) :
    ∀ (rs : List RResult) (c : List (String × ℚ)),
      lookupScore (rrfFold c rs) j = lookupScore c j + sumTerms rs j := by
  intro rs
  induction rs with
  | nil =>
    intro c
    simp [rrfFold, sumTerms, lookupScore]
  | cons r rest ih =>
    intro c
    have hfold : rrfFold c (r :: rest)
        = rrfFold (rrfBump c r.doc.docId (1 / ((r.rank : ℚ) + 60))) rest := by
      unfold rrfFold
      rw [List.foldl_cons]
    rw [hfold, ih, lookupScore_bump]
    have hsum : sumTerms (r :: rest) j
        = (if j = r.doc.docId then 1 / ((r.rank : ℚ) + 60) else 0) + sumTerms rest j := by
      unfold sumTerms
      by_cases hr : (r.doc.docId == j) = true
      · rw [@List.filter_cons_of_pos _ (fun q => q.doc.docId == j) r rest hr,
          List.map_cons, List.sum_cons, if_pos (eq_of_beq hr).symm]
      · rw [@List.filter_cons_of_neg _ (fun q => q.doc.docId == j) r rest hr,
          if_neg (fun he => hr (beq_iff_eq.mpr he.symm)), zero_add]
    rw [hsum]
    ring

theorem rrfBump_fst_pos (c : List (String × ℚ)) (id : String) (v : ℚ)
    (h : (c.any (fun p => p.1 == id)) = true) :
    (rrfBump c id v).map Prod.fst = c.map Prod.fst := by
  unfold rrfBump
  rw [if_pos h, List.map_map]
  apply List.map_congr_left
  intro p _
  by_cases hp : (p.1 == id) = true
  · simp [Function.comp, hp]
  · simp [Function.comp, hp]

theorem rrfBump_fst_neg (c : List (String × ℚ)) (id : String) (v : ℚ)
    (h : (c.any (fun p => p.1 == id)) = false) :
    (rrfBump c id v).map Prod.fst = c.map Prod.fst ++ [id] := by
  unfold rrfBump
  rw [if_neg (by simp [h]), List.map_append]
  rfl

theorem rrfBump_fst_nodup (c : List (String × ℚ)) (id : String) (v : ℚ)
    (h : (c.map Prod.fst).Nodup) : ((rrfBump c id v).map Prod.fst).Nodup := by
  by_cases hany : (c.any (fun p => p.1 == id)) = true
  · rw [rrfBump_fst_pos c id v hany]
    exact h
  · have hf : (c.any (fun p => p.1 == id)) = false := Bool.eq_false_iff.mpr hany
    rw [rrfBump_fst_neg c id v hf]
    refine List.Nodup.append h (List.nodup_singleton id) ?_
    intro a ha hb
    rcases List.mem_singleton.mp hb with rfl
    rcases List.mem_map.mp ha with ⟨p, hp, hpa⟩
    exact hany (List.any_eq_true.mpr ⟨p, hp, beq_iff_eq.mpr hpa⟩)

theorem rrfBump_fst_mem (c : List (String × ℚ)) (id j : String) (v : ℚ)
    (h : j ∈ (rrfBump c id v).map Prod.fst) : j ∈ c.map Prod.fst ∨ j = id := by
  by_cases hany : (c.any (fun p => p.1 == id)) = true
  · rw [rrfBump_fst_pos c id v hany] at h
    exact Or.inl h
  · rw [rrfBump_fst_neg c id v (Bool.eq_false_iff.mpr hany)] at h
    rcases List.mem_append.mp h with h' | h'
    · exact Or.inl h'
    · exact Or.inr (List.mem_singleton.mp h')

theorem rrfFold_fst_nodup : ∀ (rs : List RResult) (c : List (String × ℚ)),
    (c.map Prod.fst).Nodup → ((rrfFold c rs).map Prod.fst).Nodup := by
  intro rs
  induction rs with
  | nil => intro c h; exact h
  | cons r rest ih =>
    intro c h
    have hfold : rrfFold c (r :: rest)
        = rrfFold (rrfBump c r.doc.docId (1 / ((r.rank : ℚ) + 60))) rest := by
      unfold rrfFold
      rw [List.foldl_cons]
    rw [hfold]
    exact ih _ (rrfBump_fst_nodup _ _ _ h)

theorem rrfFold_fst_mem (j : String) : ∀ (rs : List RResult) (c : List (String × ℚ)),
    j ∈ (rrfFold c rs).map Prod.fst →
      j ∈ c.map Prod.fst ∨ ∃ r ∈ rs, r.doc.docId = j := by
  intro rs
  induction rs with
  | nil => intro c h; exact Or.inl h
  | cons r rest ih =>
    intro c h
    have hfold : rrfFold c (r :: rest)
        = rrfFold (rrfBump c r.doc.docId (1 / ((r.rank : ℚ) + 60))) rest := by
      unfold rrfFold
      rw [List.foldl_cons]
    rw [hfold] at h
    rcases ih _ h with h' | ⟨x, hx, hxj⟩
    · rcases rrfBump_fst_mem _ _ _ _ h' with h2 | h2
      · exact Or.inl h2
      · exact Or.inr ⟨r, List.mem_cons_self r rest, h2.symm⟩
    · exact Or.inr ⟨x, List.mem_cons_of_mem r hx, hxj⟩

theorem lookupScore_of_mem : ∀ (c : List (String × ℚ)),
    (c.map Prod.fst).Nodup → ∀ p ∈ c, lookupScore c p.1 = p.2 := by
  intro c
  induction c with
  | nil => intro _ p hp; simp at hp
  | cons q rest ih =>
    intro hnd p hp
    have hnd' : (q.1 ∉ rest.map Prod.fst) ∧ (rest.map Prod.fst).Nodup := by
      rw [List.map_cons] at hnd
      exact List.nodup_cons.mp hnd
    rcases List.mem_cons.mp hp with heq | hp'
    · rw [heq]
      unfold lookupScore
      rw [@List.find?_cons_of_pos _ (fun x => x.1 == q.1) q _ (beq_self_eq_true q.1)]
      rfl
    · have hne : ¬ ((q.1 == p.1) = true) := by
        intro hx
        exact hnd'.1 ((eq_of_beq hx) ▸ List.mem_map_of_mem Prod.fst hp')
      unfold lookupScore
      rw [@List.find?_cons_of_neg _ (fun x => x.1 == p.1) q _ hne]
      exact ih hnd'.2 p hp'

theorem sumTerms_zero_of_not_mem (id : String) (l : List RResult)
    (h : ∀ r ∈ l, ¬ (r.doc.docId = id)) : sumTerms l id = 0 := by
  unfold sumTerms
  rw [List.filter_eq_nil_iff.mpr (fun r hr => fun hb => h r hr (eq_of_beq hb))]
  rfl

theorem sumTerms_eq_posTerm_aux (id : String) :
    ∀ (l : List RResult) (s : Nat),
      l.map (fun r => r.rank) = List.range' (s + 1) l.length →
      ((l.map (fun r => r.doc.docId)).Nodup) →
      sumTerms l id = (match l.findIdx? (fun r => r.doc.docId == id) with
        | some i => 1 / ((i : ℚ) + (s : ℚ) + 1 + 60)
        | none => 0) := by
  intro l
  induction l with
  | nil => intro s _ _; rfl
  | cons r rest ih =>
    intro s hrk hnd
    rw [List.map_cons, List.length_cons, List.range'_succ] at hrk
    injection hrk with hr1 hrest
    have hndc : (r.doc.docId ∉ rest.map (fun x => x.doc.docId)) ∧
        ((rest.map (fun x => x.doc.docId)).Nodup) := by
      rw [List.map_cons] at hnd
      exact List.nodup_cons.mp hnd
    by_cases hid : (r.doc.docId == id) = true
    · rw [List.findIdx?_cons, if_pos hid]
      have hnone : ∀ x ∈ rest, ¬ (x.doc.docId = id) := by
        intro x hx he
        refine hndc.1 ?_
        rw [eq_of_beq hid, ← he]
        exact List.mem_map_of_mem _ hx
      have h0 := sumTerms_zero_of_not_mem id rest hnone
      unfold sumTerms
      rw [@List.filter_cons_of_pos _ (fun q => q.doc.docId == id) r rest hid,
        List.map_cons, List.sum_cons]
      unfold sumTerms at h0
      rw [h0, add_zero, hr1]
      push_cast
      ring_nf
    · rw [List.findIdx?_cons, if_neg hid, List.findIdx?_succ]
      have ihres := ih (s + 1) hrest hndc.2
      unfold sumTerms
      rw [@List.filter_cons_of_neg _ (fun q => q.doc.docId == id) r rest hid]
      unfold sumTerms at ihres
      rw [ihres]
      cases hfi : rest.findIdx? (fun r => r.doc.docId == id) with
      | none => rfl
      | some i =>
        show (1 : ℚ) / ((i : ℚ) + ((s + 1 : ℕ) : ℚ) + 1 + 60)
            = 1 / (((i + 1 : ℕ) : ℚ) + (s : ℚ) + 1 + 60)
        push_cast
        ring_nf

theorem sumTerms_eq_posTerm (id : String) (l : List RResult)
    (hr : ranked l) (hnd : ((l.map (fun r => r.doc.docId)).Nodup)) :
    sumTerms l id = posTerm l id := by
  have haux := sumTerms_eq_posTerm_aux id l 0 (by simpa [ranked] using hr) hnd
  rw [haux]
  unfold posTerm
  cases l.findIdx? (fun r => r.doc.docId == id) with
  | none => rfl
  | some i =>
    show (1 : ℚ) / ((i : ℚ) + (0 : ℚ) + 1 + 60) = 1 / ((i : ℚ) + 1 + 60)
    ring_nf

theorem dictInsert_fst_pos {V : Type} (d : List (String × V)) (k : String) (v : V)
    (h : (d.any (fun p => p.1 == k)) = true) :
    (dictInsert d k v).map Prod.fst = d.map Prod.fst := by
  unfold dictInsert
  rw [if_pos h, List.map_map]
  apply List.map_congr_left
  intro p _
  by_cases hp : (p.1 == k) = true
  · simp [Function.comp, hp, (eq_of_beq hp).symm]
  · simp [Function.comp, hp]

theorem dictInsert_fst_neg {V : Type} (d : List (String × V)) (k : String) (v : V)
    (h : (d.any (fun p => p.1 == k)) = false) :
    (dictInsert d k v).map Prod.fst = d.map Prod.fst ++ [k] := by
  unfold dictInsert
  rw [if_neg (by simp [h]), List.map_append]
  rfl

theorem dictInsert_fst_mem {V : Type} (d : List (String × V)) (k j : String) (v : V)
    (h : j ∈ d.map Prod.fst ∨ j = k) : j ∈ (dictInsert d k v).map Prod.fst := by
  by_cases hany : (d.any (fun p => p.1 == k)) = true
  · rw [dictInsert_fst_pos d k v hany]
    rcases h with h | h
    · exact h
    · rcases List.any_eq_true.mp hany with ⟨p, hp, hpk⟩
      rw [h, ← eq_of_beq hpk]
      exact List.mem_map_of_mem Prod.fst hp
  · rw [dictInsert_fst_neg d k v (Bool.eq_false_iff.mpr hany)]
    rcases h with h | h
    · exact List.mem_append.mpr (Or.inl h)
    · exact List.mem_append.mpr (Or.inr (h ▸ List.mem_singleton_self j))

theorem docResultsSem_inv (rs : List RResult) :
    ∀ (m : List (String × RResult)), (∀ p ∈ m, p.2.doc.docId = p.1) →
      ∀ p ∈ docResultsSem m rs, p.2.doc.docId = p.1 := by
  induction rs with
  | nil => intro m h; exact h
  | cons r rest ih =>
    intro m h
    have hfold : docResultsSem m (r :: rest)
        = docResultsSem (dictInsert m r.doc.docId r) rest := by
      unfold docResultsSem
      rw [List.foldl_cons]
    rw [hfold]
    refine ih _ ?_
    intro p hp
    unfold dictInsert at hp
    split at hp
    · rcases List.mem_map.mp hp with ⟨q, hq, hqp⟩
      by_cases hq1 : (q.1 == r.doc.docId) = true
      · rw [if_pos hq1] at hqp
        rw [← hqp]
      · rw [if_neg hq1] at hqp
        rw [← hqp]
        exact h q hq
    · rcases List.mem_append.mp hp with hp' | hp'
      · exact h p hp'
      · rw [List.mem_singleton.mp hp']

theorem docResultsBm_inv (rs : List RResult) :
    ∀ (m : List (String × RResult)), (∀ p ∈ m, p.2.doc.docId = p.1) →
      ∀ p ∈ docResultsBm m rs, p.2.doc.docId = p.1 := by
  induction rs with
  | nil => intro m h; exact h
  | cons r rest ih =>
    intro m h
    have hfold : docResultsBm m (r :: rest)
        = docResultsBm (if m.any (fun p => p.1 == r.doc.docId) then m
            else m ++ [(r.doc.docId, r)]) rest := by
      unfold docResultsBm
      rw [List.foldl_cons]
    rw [hfold]
    refine ih _ ?_
    intro p hp
    split at hp
    · exact h p hp
    · rcases List.mem_append.mp hp with hp' | hp'
      · exact h p hp'
      · rw [List.mem_singleton.mp hp']

theorem docResultsSem_fst_mem (rs : List RResult) (j : String) :
    ∀ (m : List (String × RResult)),
      (j ∈ m.map Prod.fst ∨ ∃ r ∈ rs, r.doc.docId = j) →
      j ∈ (docResultsSem m rs).map Prod.fst := by
  induction rs with
  | nil =>
    intro m h
    rcases h with h | ⟨r, hr, _⟩
    · exact h
    · simp at hr
  | cons r rest ih =>
    intro m h
    have hfold : docResultsSem m (r :: rest)
        = docResultsSem (dictInsert m r.doc.docId r) rest := by
      unfold docResultsSem
      rw [List.foldl_cons]
    rw [hfold]
    rcases h with h | ⟨x, hx, hxj⟩
    · exact ih _ (Or.inl (dictInsert_fst_mem _ _ _ _ (Or.inl h)))
    · rcases List.mem_cons.mp hx with heq | hx'
      · refine ih _ (Or.inl (dictInsert_fst_mem _ _ _ _ (Or.inr ?_)))
        rw [← hxj, heq]
      · exact ih _ (Or.inr ⟨x, hx', hxj⟩)

theorem docResultsBm_fst_mem (rs : List RResult) (j : String) :
    ∀ (m : List (String × RResult)),
      (j ∈ m.map Prod.fst ∨ ∃ r ∈ rs, r.doc.docId = j) →
      j ∈ (docResultsBm m rs).map Prod.fst := by
  induction rs with
  | nil =>
    intro m h
    rcases h with h | ⟨r, hr, _⟩
    · exact h
    · simp at hr
  | cons r rest ih =>
    intro m h
    have hfold : docResultsBm m (r :: rest)
        = docResultsBm (if m.any (fun p => p.1 == r.doc.docId) then m
            else m ++ [(r.doc.docId, r)]) rest := by
      unfold docResultsBm
      rw [List.foldl_cons]
    rw [hfold]
    rcases h with h | ⟨x, hx, hxj⟩
    · refine ih _ (Or.inl ?_)
      split
      · exact h
      · rw [List.map_append]
        exact List.mem_append.mpr (Or.inl h)
    · rcases List.mem_cons.mp hx with heq | hx'
      · refine ih _ (Or.inl ?_)
        by_cases hany : (m.any (fun p => p.1 == r.doc.docId)) = true
        · rw [if_pos hany]
          rcases List.any_eq_true.mp hany with ⟨p, hp, hpk⟩
          rw [← hxj, heq, ← eq_of_beq hpk]
          exact List.mem_map_of_mem Prod.fst hp
        · rw [if_neg hany, List.map_append]
          refine List.mem_append.mpr (Or.inr ?_)
          rw [← hxj, heq]
          exact List.mem_singleton_self _
      · exact ih _ (Or.inr ⟨x, hx', hxj⟩)

theorem dictFind_of_mem_fst {V : Type} (d : List (String × V)) (j : String)
    (h : j ∈ d.map Prod.fst) :
    ∃ q, d.find? (fun p => p.1 == j) = some q ∧ q ∈ d ∧ q.1 = j := by
  rcases List.mem_map.mp h with ⟨p, hp, hpj⟩
  have hsome : ((d.find? (fun p => p.1 == j)).isSome) = true :=
    List.find?_isSome.mpr ⟨p, hp, beq_iff_eq.mpr hpj⟩
  cases hq : d.find? (fun p => p.1 == j) with
  | none =>
    rw [hq] at hsome
    simp at hsome
  | some q =>
    have hqt := @List.find?_some _ (fun p : String × V => p.1 == j) q d hq
    exact ⟨q, rfl, List.mem_of_find?_eq_some hq, eq_of_beq hqt⟩

theorem pairwise_enumFrom {α : Type} (R : α → α → Prop) :
    ∀ (l : List α) (n : Nat), List.Pairwise R l →
      List.Pairwise (fun p q => R p.2 q.2) (List.enumFrom n l) := by
  intro l
  induction l with
  | nil => intro n _; simp
  | cons x xs ih =>
    intro n h
    rcases List.pairwise_cons.mp h with ⟨hx, hxs⟩
    rw [List.enumFrom_cons]
    refine List.pairwise_cons.mpr ⟨?_, ih _ hxs⟩
    intro q hq
    have hq2 : q.2 ∈ xs := by
      have hsnd := List.enumFrom_map_snd (n + 1) xs
      rw [← hsnd]
      exact List.mem_map_of_mem Prod.snd hq
    exact hx q.2 hq2

theorem enumFrom_fst_map {α : Type} :
    ∀ (l : List α) (n : Nat),
      (List.enumFrom n l).map (fun q => q.1 + 1) = List.range' (n + 1) l.length := by
  intro l
  induction l with
  | nil => intro n; rfl
  | cons x xs ih =>
    intro n
    rw [List.enumFrom_cons, List.map_cons, List.length_cons, List.range'_succ, ih]

theorem rrfAssemble_spec (semL bmL : List RResult) (k : Nat)
    (hsr : ranked semL) (hsn : (semL.map (fun r => r.doc.docId)).Nodup)
    (hbr : ranked bmL) (hbn : (bmL.map (fun r => r.doc.docId)).Nodup) :
    (∀ r ∈ rrfAssemble semL bmL k,
      r.score = posTerm semL r.doc.docId + posTerm bmL r.doc.docId) ∧
    List.Pairwise (fun a b : RResult => b.score ≤ a.score) (rrfAssemble semL bmL k) ∧
    (rrfAssemble semL bmL k).map (fun r => r.rank)
      = List.range' 1 (rrfAssemble semL bmL k).length ∧
    (rrfAssemble semL bmL k).length ≤ k := by
  have hdef : rrfAssemble semL bmL k
      = (((pySortBy (fun a b : String × ℚ => decide (b.2 ≤ a.2))
            (rrfFold (rrfFold [] semL) bmL)).take k).enum).map
          (fun p => { doc := ((dictFind (docResultsBm (docResultsSem [] semL) bmL) p.2.1).getD default).doc
                      score := p.2.2
                      rank := p.1 + 1
                      method := "hybrid" : RResult }) := rfl
  have hnodup : ((rrfFold (rrfFold [] semL) bmL).map Prod.fst).Nodup :=
    rrfFold_fst_nodup bmL _ (rrfFold_fst_nodup semL [] (by simp))
  have hsorted := pySortBy_pairwise (fun a b : String × ℚ => decide (b.2 ≤ a.2))
    (fun a b c hab hbc => by
      simp only [decide_eq_true_eq] at hab hbc ⊢
      exact le_trans hbc hab)
    (fun a b => by
      rcases le_total b.2 a.2 with h1 | h1
      · exact Or.inl (by simpa using h1)
      · exact Or.inr (by simpa using h1))
    (rrfFold (rrfFold [] semL) bmL)
  refine ⟨?_, ?_, ?_, ?_⟩
  · intro r hr
    rw [hdef] at hr
    rcases List.mem_map.mp hr with ⟨p, hp, hpr⟩
    have hp2 : p.2 ∈ (pySortBy (fun a b : String × ℚ => decide (b.2 ≤ a.2))
        (rrfFold (rrfFold [] semL) bmL)).take k := by
      have hsnd := List.enumFrom_map_snd 0
        ((pySortBy (fun a b : String × ℚ => decide (b.2 ≤ a.2))
          (rrfFold (rrfFold [] semL) bmL)).take k)
      rw [← hsnd]
      exact List.mem_map_of_mem Prod.snd hp
    have hmem : p.2 ∈ rrfFold (rrfFold [] semL) bmL :=
      (pySortBy_perm _ _).mem_iff.mp (List.take_subset _ _ hp2)
    have hsc : lookupScore (rrfFold (rrfFold [] semL) bmL) p.2.1 = p.2.2 :=
      lookupScore_of_mem _ hnodup p.2 hmem
    have hlk : lookupScore (rrfFold (rrfFold [] semL) bmL) p.2.1
        = sumTerms semL p.2.1 + sumTerms bmL p.2.1 := by
      rw [lookupScore_rrfFold, lookupScore_rrfFold]
      have h0 : lookupScore ([] : List (String × ℚ)) p.2.1 = 0 := rfl
      rw [h0, zero_add]
    have hidmem : p.2.1 ∈ (rrfFold (rrfFold [] semL) bmL).map Prod.fst :=
      List.mem_map_of_mem Prod.fst hmem
    have hsrc : (∃ x ∈ semL, x.doc.docId = p.2.1) ∨ (∃ x ∈ bmL, x.doc.docId = p.2.1) := by
      rcases rrfFold_fst_mem p.2.1 bmL _ hidmem with hin | hx
      · rcases rrfFold_fst_mem p.2.1 semL [] hin with habs | hx
        · simp at habs
        · exact Or.inl hx
      · exact Or.inr hx
    have hdres : p.2.1 ∈ (docResultsBm (docResultsSem [] semL) bmL).map Prod.fst := by
      rcases hsrc with hx | hx
      · exact docResultsBm_fst_mem bmL p.2.1 _
          (Or.inl (docResultsSem_fst_mem semL p.2.1 [] (Or.inr hx)))
      · exact docResultsBm_fst_mem bmL p.2.1 _ (Or.inr hx)
    rcases dictFind_of_mem_fst _ p.2.1 hdres with ⟨entry, hfind, hentrymem, hentryfst⟩
    have hinv : entry.2.doc.docId = entry.1 :=
      docResultsBm_inv bmL _ (docResultsSem_inv semL [] (by simp)) entry hentrymem
    have hdf : dictFind (docResultsBm (docResultsSem [] semL) bmL) p.2.1 = some entry.2 := by
      unfold dictFind
      rw [hfind]
      rfl
    have hdocid : r.doc.docId = p.2.1 := by
      rw [← hpr]
      show ((dictFind (docResultsBm (docResultsSem [] semL) bmL) p.2.1).getD default).doc.docId
        = p.2.1
      rw [hdf]
      show entry.2.doc.docId = p.2.1
      rw [hinv, hentryfst]
    have hscore : r.score = p.2.2 := by
      rw [← hpr]
    rw [hscore, hdocid, ← hsc, hlk,
      sumTerms_eq_posTerm _ semL hsr hsn, sumTerms_eq_posTerm _ bmL hbr hbn]
  · rw [hdef]
    refine List.pairwise_map.mpr ?_
    have h1 : List.Pairwise (fun a b : String × ℚ => b.2 ≤ a.2)
        (pySortBy (fun a b : String × ℚ => decide (b.2 ≤ a.2))
          (rrfFold (rrfFold [] semL) bmL)) :=
      hsorted.imp (fun hle => by simpa using hle)
    have h2 : List.Pairwise (fun a b : String × ℚ => b.2 ≤ a.2)
        ((pySortBy (fun a b : String × ℚ => decide (b.2 ≤ a.2))
          (rrfFold (rrfFold [] semL) bmL)).take k) :=
      List.Pairwise.sublist (List.take_sublist k _) h1
    have h3 := pairwise_enumFrom (fun a b : String × ℚ => b.2 ≤ a.2) _ 0 h2
    exact h3.imp (fun hle => hle)
  · rw [hdef, List.map_map, List.length_map, List.enum_length]
    exact enumFrom_fst_map _ 0
  · rw [hdef, List.length_map, List.enum_length, List.length_take]
    omega

/-- C4: `_hybrid_retrieve` computes the semantic and keyword lists at twice
the requested top-k, gives every fused document the score
`Σ 1/(rank_in_list + 60)` over the (rank-numbered, duplicate-free) lists it
appears in — one term per list — and returns the results in descending
fused-score order with ranks renumbered from 1, truncated to top-k. -/
theorem c4_theorem (st : VectorState) (q : String) (k : Nat)
    (filters : List (String × String))
    (hsr : ranked (semanticRetrieve st q (k * 2)))
    (hsn : ((semanticRetrieve st q (k * 2)).map (fun r => r.doc.docId)).Nodup)
    (hbr : ranked (bm25Retrieve st q (k * 2) filters))
    (hbn : ((bm25Retrieve st q (k * 2) filters).map (fun r => r.doc.docId)).Nodup) :
    hybridRetrieve st q k filters
      = rrfAssemble (semanticRetrieve st q (k * 2))
          (bm25Retrieve st q (k * 2) filters) k ∧
    (∀ r ∈ hybridRetrieve st q k filters,
      r.score = posTerm (semanticRetrieve st q (k * 2)) r.doc.docId
        + posTerm (bm25Retrieve st q (k * 2) filters) r.doc.docId) ∧
    List.Pairwise (fun a b : RResult => b.score ≤ a.score) (hybridRetrieve st q k filters) ∧
    (hybridRetrieve st q k filters).map (fun r => r.rank)
      = List.range' 1 (hybridRetrieve st q k filters).length ∧
    (hybridRetrieve st q k filters).length ≤ k := by
  have hs := rrfAssemble_spec (semanticRetrieve st q (k * 2))
    (bm25Retrieve st q (k * 2) filters) k hsr hsn hbr hbn
  exact ⟨rfl, hs.1, hs.2.1, hs.2.2.1, hs.2.2.2⟩

/-- C4 witness: the fusion contract at a concrete two-document state. -/
theorem c4_witness :
    (ranked (semanticRetrieve c4State "how do transformers work" (2 * 2)) ∧
     ((semanticRetrieve c4State "how do transformers work" (2 * 2)).map
        (fun r => r.doc.docId)).Nodup ∧
     ranked (bm25Retrieve c4State "how do transformers work" (2 * 2) []) ∧
     ((bm25Retrieve c4State "how do transformers work" (2 * 2) []).map
        (fun r => r.doc.docId)).Nodup) ∧
    (hybridRetrieve c4State "how do transformers work" 2 []
      = rrfAssemble (semanticRetrieve c4State "how do transformers work" (2 * 2))
          (bm25Retrieve c4State "how do transformers work" (2 * 2) []) 2 ∧
    (∀ r ∈ hybridRetrieve c4State "how do transformers work" 2 [],
      r.score = posTerm (semanticRetrieve c4State "how do transformers work" (2 * 2)) r.doc.docId
        + posTerm (bm25Retrieve c4State "how do transformers work" (2 * 2) []) r.doc.docId) ∧
    List.Pairwise (fun a b : RResult => b.score ≤ a.score)
      (hybridRetrieve c4State "how do transformers work" 2 []) ∧
    (hybridRetrieve c4State "how do transformers work" 2 []).map (fun r => r.rank)
      = List.range' 1 (hybridRetrieve c4State "how do transformers work" 2 []).length ∧
    (hybridRetrieve c4State "how do transformers work" 2 []).length ≤ 2) :=
  ⟨⟨by unfold ranked; decide, by decide, by unfold ranked; decide, by decide⟩,
    c4_theorem c4State "how do transformers work" 2 []
      (by unfold ranked; decide) (by decide) (by unfold ranked; decide) (by decide)⟩
